import Mathlib

/-!
Verification of the requeststore v1 store engine.

This file gives a shallow embedding of the store's key derivation, path
layout, write-exclusion marker protocol, HTTP wire codec, CRUD operations
and response entity, together with proofs of the behavioural properties
claimed for them.

Conventions:
* Byte strings are modelled as `List Char` (`Bytes`); all content handled by
  the store is ASCII or treated opaquely, so chars model bytes faithfully.
* The pluggable VFS is modelled as a map from paths to optional file
  contents (`FS`); `none` is "does not exist".  Directory creation always
  succeeds, matching the in-memory VFS on the code's happy paths.
* Cryptographic digest primitives (sha256 etc.) are external library
  collaborators; they are passed in as a `DigestFns` record of opaque
  string functions, mirroring how the code calls into crypto packages.
* `net/url` is an external stdlib collaborator.  A URL value is modelled by
  its serialized form; `url.Parse` is modelled as succeeding exactly on
  control-character-free strings whose scheme segment is well formed, and
  returning a URL whose `String()` is the input.  This is faithful for URLs
  already in normalized serialized form (where Go's Parse-then-String is
  the identity), which is the regime of the round-trip claims.
-/

abbrev Bytes := List Char

def CRLF : Bytes := ['\r', '\n']

/-- ASCII lower-casing of a single char, as `strings.ToLower` acts on the
ASCII range (the only range relevant to the selector and header-name
comparisons in the code). -/
def lowChar (c : Char) : Char :=
  if 65 <= c.toNat && c.toNat <= 90 then Char.ofNat (c.toNat + 32) else c

/-- ASCII upper-casing of a single char. -/
def upChar (c : Char) : Char :=
  if 97 <= c.toNat && c.toNat <= 122 then Char.ofNat (c.toNat - 32) else c

def lowBytes (s : Bytes) : Bytes := s.map lowChar

/-- `strings.ToLower` on a Go string (ASCII range). -/
def goToLower (s : String) : String := String.mk (lowBytes s.data)

/-- Valid header-field byte (`validHeaderFieldByte` / token chars from
net/textproto): letters, digits, and the RFC 7230 token specials. -/
def isTokenChar (c : Char) : Bool :=
  (('a' ≤ c && c ≤ 'z') || ('A' ≤ c && c ≤ 'Z') || ('0' ≤ c && c ≤ '9') ||
   c = '!' || c = '#' || c = '$' || c = '%' || c = '&' || c = Char.ofNat 39 ||
   c = '*' || c = '+' || c = '-' || c = '.' || c = '^' || c = '_' ||
   c = Char.ofNat 96 || c = '|' || c = '~')

def isDigitChar (c : Char) : Bool := '0' ≤ c && c ≤ '9'

/-- ASCII control characters rejected by `url.Parse`. -/
def isCtlChar (c : Char) : Bool := c.toNat < 32 || c.toNat = 127

def isSpaceTab (c : Char) : Bool := c = ' ' || c = '\t'

def headIsSpaceTab : Bytes → Bool
  | [] => false
  | c :: _ => isSpaceTab c

/-! ### Line splitting (textproto ReadLine over a byte stream)

`splitLines` turns a byte stream into the sequence of lines that repeated
`textproto.Reader.ReadLine` calls would yield: content up to each `'\n'`
with one immediately preceding `'\r'` stripped; a final unterminated chunk
is returned as a last line (as bufio `ReadLine` does at EOF). -/

def dropCRhead : Bytes → Bytes
  | '\r' :: t => t
  | t => t

def splitLinesAux : Bytes → Bytes → List Bytes
  | [], acc => if acc.isEmpty then [] else [acc.reverse]
  | c :: r, acc =>
    if c = '\n' then (dropCRhead acc).reverse :: splitLinesAux r []
    else splitLinesAux r (c :: acc)

def splitLines (s : Bytes) : List Bytes := splitLinesAux s []

/-! ### strings.SplitN with a single-space separator -/

def breakAtSpace : Bytes → Option (Bytes × Bytes)
  | [] => none
  | c :: r =>
    if c = ' ' then some ([], r)
    else (breakAtSpace r).map (fun p => (c :: p.1, p.2))

/-- `strings.SplitN(s, " ", n)`. -/
def splitNSpace (n : Nat) (s : Bytes) : List Bytes :=
  match n with
  | 0 => []
  | 1 => [s]
  | Nat.succ (Nat.succ m) =>
    match breakAtSpace s with
    | none => [s]
    | some (a, b) => a :: splitNSpace (Nat.succ m) b

/-! ### Misc byte-string helpers -/

def trimLeftST : Bytes → Bytes
  | [] => []
  | c :: r => if isSpaceTab c then trimLeftST r else c :: r

def trimRightST (s : Bytes) : Bytes := (trimLeftST s.reverse).reverse

/-- The value cleanup `http.Header.Write` applies: newlines replaced by
spaces and surrounding space/tab trimmed. -/
def cleanValue (v : Bytes) : Bytes :=
  trimRightST (trimLeftST (v.map (fun c => if c = '\n' || c = '\r' then ' ' else c)))

def isPrefixB : Bytes → Bytes → Bool
  | [], _ => true
  | _ :: _, [] => false
  | a :: as, b :: bs => a = b && isPrefixB as bs

/-- `strings.Contains s sub`. -/
def containsB (s sub : Bytes) : Bool :=
  if isPrefixB sub s then true
  else match s with
  | [] => false
  | _ :: r => containsB r sub

/-- Byte-wise lexicographic strict order on strings (Go string `<`). -/
def lexLt : Bytes → Bytes → Bool
  | [], [] => false
  | [], _ :: _ => true
  | _ :: _, [] => false
  | a :: as, b :: bs =>
    if a.toNat < b.toNat then true
    else if b.toNat < a.toNat then false
    else lexLt as bs

def breakAtColon : Bytes → Option (Bytes × Bytes)
  | [] => none
  | c :: r =>
    if c = ':' then some ([], r)
    else (breakAtColon r).map (fun p => (c :: p.1, p.2))

/-! ### MIME header reading and writing -/

/-- An `http.Header` / `textproto.MIMEHeader` value: a finite map from
header names to value lists, represented as an association list. -/
abbrev HeaderModel := List (Bytes × List Bytes)

/-- `textproto.canonicalMIMEHeaderKey`: canonical case if every byte is a
valid header-field byte, otherwise the key is returned unchanged. -/
def canonAux : Bool → Bytes → Bytes
  | _, [] => []
  | up, c :: r =>
    let c2 := if up then upChar c else lowChar c
    c2 :: canonAux (c2 = '-') r

def canonicalMIMEHeaderKey (k : Bytes) : Bytes :=
  if k.all isTokenChar then canonAux true k else k

/-- Adding a value under a key into a MIME header map (Go map append). -/
def addHeaderValue : HeaderModel → Bytes → Bytes → HeaderModel
  | [], k, v => [(k, [v])]
  | (k0, vs0) :: t, k, v =>
    if k0 = k then (k0, vs0 ++ [v]) :: t
    else (k0, vs0) :: addHeaderValue t k v

inductive GoErr where
  | notFoundInStore
  | foundWithZeroInStore
  | foundInStore
  | foundInStorePrivate
  | eof
  | malformedHeader
  | malformedRequestLine (line : Bytes)
  | malformedResponse (line : Bytes)
  | malformedStatusCode (f : Bytes)
  | invalidMethod
  | urlError (u : Bytes)
  | transport (msg : Bytes)
  deriving Repr, DecidableEq

/-- Parse one (continuation-joined) header line into the accumulated
header map: split at the first colon, canonicalize the key, trim leading
space/tab off the value; an empty key is skipped. -/
def commitLine (acc : HeaderModel) (l2 : Bytes) : Except GoErr HeaderModel :=
  match breakAtColon l2 with
  | none => .error .malformedHeader
  | some (k, v) =>
    let key := canonicalMIMEHeaderKey k
    if key.isEmpty then .ok acc
    else .ok (addHeaderValue acc key (trimLeftST v))

/-- `textproto.Reader.ReadMIMEHeader` over the remaining lines of the
stream, as a state machine over lines: `pending` is the header line read
but not yet committed (it may still grow by obs-fold continuation lines).
Returns the parsed header and the lines after the blank terminator; EOF
before the blank line is an error. -/
def mimeLoop : List Bytes → HeaderModel → Option Bytes → Except GoErr (HeaderModel × List Bytes)
  | [], _, none => .error .eof
  | [], acc, some p =>
    (match commitLine acc p with
     | .error e => .error e
     | .ok _ => .error .eof)
  | l :: rest, acc, some p =>
    if headIsSpaceTab l then mimeLoop rest acc (some (p ++ ' ' :: trimLeftST l))
    else
      (match commitLine acc p with
       | .error e => .error e
       | .ok acc2 =>
         if l.isEmpty then .ok (acc2, rest)
         else mimeLoop rest acc2 (some l))
  | l :: rest, acc, none =>
    if l.isEmpty then .ok (acc, rest)
    else mimeLoop rest acc (some l)

def readMIMEHeader (lines : List Bytes) : Except GoErr (HeaderModel × List Bytes) :=
  match lines with
  | l :: _ =>
    if headIsSpaceTab l then .error .malformedHeader
    else mimeLoop lines [] none
  | [] => mimeLoop [] [] none

instance {ε α : Type} [DecidableEq ε] [DecidableEq α] : DecidableEq (Except ε α) := by
  intro a b
  cases a with
  | error e =>
    cases b with
    | error f => exact if h : e = f then .isTrue (by rw [h]) else .isFalse (by simp [h])
    | ok _ => exact .isFalse (by simp)
  | ok x =>
    cases b with
    | error _ => exact .isFalse (by simp)
    | ok y => exact if h : x = y then .isTrue (by rw [h]) else .isFalse (by simp [h])

/-! ### Decimal integers (fmt %d and strconv.Atoi) -/

def digitChar (d : Nat) : Char :=
  if d = 0 then '0' else if d = 1 then '1' else if d = 2 then '2'
  else if d = 3 then '3' else if d = 4 then '4' else if d = 5 then '5'
  else if d = 6 then '6' else if d = 7 then '7' else if d = 8 then '8'
  else if d = 9 then '9' else '*'

def natToDigitsF : Nat → Nat → Bytes
  | 0, _ => []
  | f + 1, n =>
    if n < 10 then [digitChar n]
    else natToDigitsF f (n / 10) ++ [digitChar (n % 10)]

def natToDigits (n : Nat) : Bytes := natToDigitsF (n + 1) n

/-- `fmt.Sprintf "%d"` on a Go int (unbounded model). -/
def goItoa (i : Int) : Bytes :=
  if i < 0 then '-' :: natToDigits i.natAbs else natToDigits i.natAbs

def parseNatDigitsAux : Bytes → Nat → Option Nat
  | [], acc => some acc
  | c :: r, acc =>
    if isDigitChar c then parseNatDigitsAux r (acc * 10 + (c.toNat - 48))
    else none

def parseNatDigits (s : Bytes) : Option Nat :=
  if s.isEmpty then none else parseNatDigitsAux s 0

/-- `strconv.Atoi` (unbounded model: the range check never fires for the
status codes at issue). -/
def goAtoi (s : Bytes) : Option Int :=
  match s with
  | [] => none
  | c :: r =>
    if c = '+' then (parseNatDigits r).map Int.ofNat
    else if c = '-' then (parseNatDigits r).map (fun n => -(Int.ofNat n))
    else (parseNatDigits s).map Int.ofNat

/-! ### URLs (shallow model of net/url, an external collaborator) -/

structure URLModel where
  str : Bytes
  deriving Repr, DecidableEq

/-- `getScheme` from net/url: `.error` when the raw URL starts with a colon
(`missing protocol scheme`), `.ok (some _)` when a scheme segment is
present, `.ok none` when the URL is scheme-less. -/
def getSchemeAux : Bytes → Bytes → Except Unit (Option (Bytes × Bytes))
  | _, [] => .ok none
  | acc, c :: r =>
    if ('a' ≤ c && c ≤ 'z') || ('A' ≤ c && c ≤ 'Z') then
      getSchemeAux (acc ++ [c]) r
    else if isDigitChar c || c = '+' || c = '-' || c = '.' then
      if acc.isEmpty then .ok none else getSchemeAux (acc ++ [c]) r
    else if c = ':' then
      if acc.isEmpty then .error () else .ok (some (acc, r))
    else .ok none

/-- Shallow model of `url.Parse` (see file header): rejects control
characters and a leading colon, and keeps the serialized form. -/
def parseURL (s : Bytes) : Option URLModel :=
  if s.any isCtlChar then none
  else
    match getSchemeAux [] s with
    | .error _ => none
    | _ => some ⟨s⟩

/-- `URL.IsAbs`: a scheme is present. -/
def urlIsAbs (u : URLModel) : Bool :=
  match getSchemeAux [] u.str with
  | .ok (some _) => true
  | _ => false

/-! ### HTTP request / response models and the wire codec -/

structure ReqModel where
  method : Bytes
  url : URLModel
  proto : Bytes
  host : Bytes
  header : HeaderModel
  deriving Repr, DecidableEq

/-- `http.Request.validMethod`: non-empty and all token chars. -/
def validMethod (m : Bytes) : Bool := !m.isEmpty && m.all isTokenChar

/-- `http.NewRequest(method, url, nil)`: validate the method, parse the
URL, and produce a request whose protocol is the fixed "HTTP/1.1". -/
def newRequest (method urlStr : Bytes) : Except GoErr ReqModel :=
  let m := if method.isEmpty then ("GET").toList else method
  if !validMethod m then .error .invalidMethod
  else
    match parseURL urlStr with
    | none => .error (.urlError urlStr)
    | some u => .ok ⟨m, u, ("HTTP/1.1").toList, [], []⟩

/-- `readRequest` from the source: read the request line, split it into
exactly three space-separated fields, read the MIME header block, then
build the request with `http.NewRequest` (the third field, the protocol,
is only logged and is dropped). -/
def readRequest (b : Bytes) : Except GoErr ReqModel :=
  match splitLines b with
  | [] => .error .eof
  | line :: rest =>
    match splitNSpace 3 line with
    | [m, u, _p] =>
      match readMIMEHeader rest with
      | .error e => .error e
      | .ok (hdr, _) =>
        match newRequest m u with
        | .error e => .error e
        | .ok req => .ok { req with header := hdr }
    | _ => .error (.malformedRequestLine line)

/-- Sorted key/value view used by `http.Header.Write` (sorted by key,
byte-wise). -/
def sortHeader (h : HeaderModel) : HeaderModel :=
  List.insertionSort (fun a b => lexLt a.1 b.1 = true) h

/-- The header lines `http.Header.Write` emits, without line terminators. -/
def headerLines (h : HeaderModel) : List Bytes :=
  (sortHeader h).flatMap (fun kv => kv.2.map (fun v => kv.1 ++ ':' :: ' ' :: cleanValue v))

def joinCRLF (ls : List Bytes) : Bytes := (ls.map (fun l => l ++ CRLF)).flatten

/-- `headersToWriter`: `http.Header.Write` followed by one extra CRLF so a
MIME reader can detect end-of-headers. -/
def headersBlock (h : HeaderModel) : Bytes := joinCRLF (headerLines h) ++ CRLF

/-- The bytes `StoreRequest` serializes for a request: the request line
`METHOD SP URL SP PROTO CRLF` (after rewriting a non-absolute URL to
`http://` ++ host ++ URL) followed by the header block. -/
def storeRequestBytes (r : ReqModel) : Bytes :=
  let r2 := if urlIsAbs r.url then r
            else { r with url := ⟨("http://").toList ++ r.host ++ r.url.str⟩ }
  (r2.method ++ ' ' :: (r2.url.str ++ ' ' :: r2.proto)) ++ CRLF ++ headersBlock r2.header

/-- The `net/http` status-text table (`http.StatusText`). -/
def statusTextTable : List (Int × String) :=
  [(100, "Continue"), (101, "Switching Protocols"), (102, "Processing"),
   (103, "Early Hints"),
   (200, "OK"), (201, "Created"), (202, "Accepted"),
   (203, "Non-Authoritative Information"), (204, "No Content"),
   (205, "Reset Content"), (206, "Partial Content"), (207, "Multi-Status"),
   (208, "Already Reported"), (226, "IM Used"),
   (300, "Multiple Choices"), (301, "Moved Permanently"), (302, "Found"),
   (303, "See Other"), (304, "Not Modified"), (305, "Use Proxy"),
   (307, "Temporary Redirect"), (308, "Permanent Redirect"),
   (400, "Bad Request"), (401, "Unauthorized"), (402, "Payment Required"),
   (403, "Forbidden"), (404, "Not Found"), (405, "Method Not Allowed"),
   (406, "Not Acceptable"), (407, "Proxy Authentication Required"),
   (408, "Request Timeout"), (409, "Conflict"), (410, "Gone"),
   (411, "Length Required"), (412, "Precondition Failed"),
   (413, "Request Entity Too Large"), (414, "Request URI Too Long"),
   (415, "Unsupported Media Type"), (416, "Requested Range Not Satisfiable"),
   (417, "Expectation Failed"), (418, "I'm a teapot"),
   (421, "Misdirected Request"), (422, "Unprocessable Entity"),
   (423, "Locked"), (424, "Failed Dependency"), (425, "Too Early"),
   (426, "Upgrade Required"), (428, "Precondition Required"),
   (429, "Too Many Requests"), (431, "Request Header Fields Too Large"),
   (451, "Unavailable For Legal Reasons"),
   (500, "Internal Server Error"), (501, "Not Implemented"),
   (502, "Bad Gateway"), (503, "Service Unavailable"),
   (504, "Gateway Timeout"), (505, "HTTP Version Not Supported"),
   (506, "Variant Also Negotiates"), (507, "Insufficient Storage"),
   (508, "Loop Detected"), (510, "Not Extended"),
   (511, "Network Authentication Required")]

def statusText (code : Int) : Bytes :=
  (((statusTextTable.find? (fun p => p.1 = code)).map (fun p => p.2.toList)).getD [])

/-- The bytes `storeHeader` serializes for a response-header record:
`HTTP/1.1 SP STATUS SP REASON CRLF` followed by the header block. -/
def storeHeaderBytes (code : Int) (h : HeaderModel) : Bytes :=
  (("HTTP/1.1").toList ++ ' ' :: (goItoa code ++ ' ' :: statusText code)) ++ CRLF ++
    headersBlock h

structure HeaderRec where
  statusCode : Int
  header : HeaderModel
  deriving Repr, DecidableEq

/-- `readResponseHeaders` from the source: read the status line, split it
into at most three space-separated fields, `Atoi` the second as the status
code, then read the MIME header block.  The reason phrase is dropped. -/
def readResponseHeaders (b : Bytes) : Except GoErr HeaderRec :=
  match splitLines b with
  | [] => .error .eof
  | line :: rest =>
    match splitNSpace 3 line with
    | _ :: f1 :: _ =>
      match goAtoi f1 with
      | none => .error (.malformedStatusCode f1)
      | some code =>
        match readMIMEHeader rest with
        | .error e => .error e
        | .ok (hdr, _) => .ok ⟨code, hdr⟩
    | _ => .error (.malformedResponse line)

/-! ### The store engine -/

/-- The pluggable filesystem: a map from paths to optional contents. -/
abbrev FS := String → Option Bytes

def emptyFS : FS := fun _ => none

def fsUpdate (fs : FS) (p : String) (v : Option Bytes) : FS :=
  fun q => if q = p then v else fs q

/-- `Stat(path)` succeeded with a positive size (`err == nil && stat.Size() > 0`). -/
def statNonzero (fs : FS) (p : String) : Bool :=
  match fs p with
  | some c => !c.isEmpty
  | none => false

/-- The digest primitives from the crypto packages, treated as external
collaborators (see file header). -/
structure DigestFns where
  dsha224 : String → String
  dsha256 : String → String
  dsha384 : String → String
  dsha512 : String → String
  dsha1 : String → String
  dmd5 : String → String
  dmd4 : String → String

/-- `store.HashKey`: selector dispatch, case-insensitive, with "plain"
returning the key unchanged and everything unrecognized (including the
empty selector) falling back to sha256. -/
def hashKey (d : DigestFns) (hashSel : String) (key : String) : String :=
  if goToLower hashSel = "sha224" then d.dsha224 key
  else if goToLower hashSel = "sha384" then d.dsha384 key
  else if goToLower hashSel = "sha512" then d.dsha512 key
  else if goToLower hashSel = "sha1" then d.dsha1 key
  else if goToLower hashSel = "md5" then d.dmd5 key
  else if goToLower hashSel = "md4" then d.dmd4 key
  else if goToLower hashSel = "plain" then key
  else d.dsha256 key

def requestDir : String := "request/"
def headerDir : String := "header/"
def bodyDir : String := "body/"
def formatDir : String := "v1/"
def privateExt : String := ".private"

def requestPath (d : DigestFns) (hs key : String) : String :=
  requestDir ++ formatDir ++ hashKey d hs key

def headerPath (d : DigestFns) (hs key : String) : String :=
  headerDir ++ formatDir ++ hashKey d hs key

def bodyPath (d : DigestFns) (hs key : String) : String :=
  bodyDir ++ formatDir ++ hashKey d hs key

def dummyBytes : Bytes := ("dummy").toList

/-- `vfsWrite`: create directories, truncate-create and copy. -/
def vfsWrite (fs : FS) (p : String) (content : Bytes) : FS :=
  fsUpdate fs p (some content)

/-- `vfsCreatePrivateDummy`: write the non-empty marker placeholder. -/
def vfsCreatePrivateDummy (fs : FS) (p : String) : FS :=
  fsUpdate fs p (some dummyBytes)

/-- `vfsDeletePrivateDummy`: remove, mapping not-exist to the store's
not-found error. -/
def vfsDeletePrivateDummy (fs : FS) (p : String) : Except GoErr Unit × FS :=
  match fs p with
  | none => (.error .notFoundInStore, fs)
  | some _ => (.ok (), fsUpdate fs p none)

/-- `store.StoreRequest`. -/
def storeRequest (d : DigestFns) (hs : String) (fs : FS) (h : ReqModel)
    (key : String) (override : Bool) : Except GoErr Unit × FS :=
  let cpath := requestPath d hs key
  let mpath := cpath ++ privateExt
  if !override && statNonzero fs mpath then (.error .foundInStorePrivate, fs)
  else if !override && statNonzero fs cpath then (.error .foundInStore, fs)
  else
    let fs1 := vfsCreatePrivateDummy fs mpath
    let fs2 := vfsWrite fs1 cpath (storeRequestBytes h)
    (.ok (), (vfsDeletePrivateDummy fs2 mpath).2)

/-- `store.privateFileExists`. -/
def privateFileExists (fs : FS) (file : String) : Except GoErr Unit :=
  if statNonzero fs (file ++ privateExt) then .error .foundInStorePrivate
  else .ok ()

/-- `store.RetrieveRequestByFileName`. -/
def retrieveRequestByFileName (fs : FS) (filename : String) : Except GoErr ReqModel :=
  match privateFileExists fs filename with
  | .error e => .error e
  | .ok _ =>
    match fs filename with
    | none => .error .notFoundInStore
    | some content =>
      if content.isEmpty then .error .foundWithZeroInStore
      else readRequest content

/-- `store.RetrieveRequestByHash`. -/
def retrieveRequestByHash (fs : FS) (hash : String) : Except GoErr ReqModel :=
  retrieveRequestByFileName fs (requestDir ++ formatDir ++ hash)

/-- `store.RetrieveRequest`. -/
def retrieveRequest (d : DigestFns) (hs : String) (fs : FS) (key : String) :
    Except GoErr ReqModel :=
  retrieveRequestByHash fs (hashKey d hs key)

/-- `store.RetrieveResponseHeader`: marker check, open, decode.  Note there
is no zero-size check on this path. -/
def retrieveResponseHeader (d : DigestFns) (hs : String) (fs : FS) (key : String) :
    Except GoErr HeaderRec :=
  match privateFileExists fs (headerPath d hs key) with
  | .error e => .error e
  | .ok _ =>
    match fs (headerPath d hs key) with
    | none => .error .notFoundInStore
    | some content => readResponseHeaders content

inductive BodyKind where
  | bytesReader
  | ioReader
  | file
  deriving Repr, DecidableEq

structure RespModel where
  statusCode : Int
  header : HeaderModel
  body : Bytes
  bodyKind : BodyKind
  deriving Repr, DecidableEq

/-- `NewResponse(statusCode, body, hdrs)` over an open file stream. -/
def newResponse (code : Int) (body : Bytes) (hdrs : HeaderModel) : RespModel :=
  ⟨code, hdrs, body, .file⟩

/-- `store.RetrieveResponse`: body marker check, open body, zero-size
check, then header retrieval, then wrap. -/
def retrieveResponse (d : DigestFns) (hs : String) (fs : FS) (key : String) :
    Except GoErr RespModel :=
  match privateFileExists fs (bodyPath d hs key) with
  | .error e => .error e
  | .ok _ =>
    match fs (bodyPath d hs key) with
    | none => .error .notFoundInStore
    | some content =>
      if content.isEmpty then .error .foundWithZeroInStore
      else
        match retrieveResponseHeader d hs fs key with
        | .error e => .error e
        | .ok h => .ok (newResponse h.statusCode content h.header)

/-- `store.storeBody`. -/
def storeBody (d : DigestFns) (hs : String) (fs : FS) (r : Bytes)
    (key : String) (override : Bool) : Except GoErr Unit × FS :=
  let cpath := bodyPath d hs key
  let mpath := cpath ++ privateExt
  if !override && statNonzero fs mpath then (.error .foundInStorePrivate, fs)
  else if !override && statNonzero fs cpath then (.error .foundInStore, fs)
  else
    let fs1 := vfsCreatePrivateDummy fs mpath
    let fs2 := vfsWrite fs1 cpath r
    (.ok (), (vfsDeletePrivateDummy fs2 mpath).2)

/-- `store.storeHeader`. -/
def storeHeader (d : DigestFns) (hs : String) (fs : FS) (code : Int)
    (h : HeaderModel) (key : String) (override : Bool) : Except GoErr Unit × FS :=
  let cpath := headerPath d hs key
  let mpath := cpath ++ privateExt
  if !override && statNonzero fs mpath then (.error .foundInStorePrivate, fs)
  else if !override && statNonzero fs cpath then (.error .foundInStore, fs)
  else
    let fs1 := vfsCreatePrivateDummy fs mpath
    let fs2 := vfsWrite fs1 cpath (storeHeaderBytes code h)
    (.ok (), (vfsDeletePrivateDummy fs2 mpath).2)

/-- `store.StoreResponse`: body then header, first error aborts. -/
def storeResponse (d : DigestFns) (hs : String) (fs : FS) (res : RespModel)
    (key : String) (override : Bool) : Except GoErr Unit × FS :=
  match storeBody d hs fs res.body key override with
  | (.error e, fs1) => (.error e, fs1)
  | (.ok _, fs1) => storeHeader d hs fs1 res.statusCode res.header key override

/-- `store.DelByFilename`: remove, mapping not-exist to not-found. -/
def delByFilename (fs : FS) (filename : String) : Except GoErr Unit × FS :=
  match fs filename with
  | none => (.error .notFoundInStore, fs)
  | some _ => (.ok (), fsUpdate fs filename none)

/-- `store.DelRequest`: delete content (propagating its error), then
best-effort delete the marker. -/
def delRequest (d : DigestFns) (hs : String) (fs : FS) (key : String) :
    Except GoErr Unit × FS :=
  match delByFilename fs (requestPath d hs key) with
  | (.error e, fs1) => (.error e, fs1)
  | (.ok _, fs1) => (.ok (), (delByFilename fs1 (requestPath d hs key ++ privateExt)).2)

/-- `store.DelResponseBody`. -/
def delResponseBody (d : DigestFns) (hs : String) (fs : FS) (key : String) :
    Except GoErr Unit × FS :=
  match delByFilename fs (bodyPath d hs key) with
  | (.error e, fs1) => (.error e, fs1)
  | (.ok _, fs1) => (.ok (), (delByFilename fs1 (bodyPath d hs key ++ privateExt)).2)

/-- `store.DelResponseHeader`. -/
def delResponseHeader (d : DigestFns) (hs : String) (fs : FS) (key : String) :
    Except GoErr Unit × FS :=
  match delByFilename fs (headerPath d hs key) with
  | (.error e, fs1) => (.error e, fs1)
  | (.ok _, fs1) => (.ok (), (delByFilename fs1 (headerPath d hs key ++ privateExt)).2)

/-- `store.DelResponse`: body then header, propagating the first error. -/
def delResponse (d : DigestFns) (hs : String) (fs : FS) (key : String) :
    Except GoErr Unit × FS :=
  match delResponseBody d hs fs key with
  | (.error e, fs1) => (.error e, fs1)
  | (.ok _, fs1) => delResponseHeader d hs fs1 key

/-- `store.RetrieveAllRequests` over the list of paths the VFS walk visits
(the walk itself is an external VFS capability; its enumeration is passed
in as `walkOrder`).  Entries whose retrieval fails are silently skipped. -/
def retrieveAllRequests (fs : FS) : List String → List ReqModel
  | [] => []
  | p :: ps =>
    match retrieveRequestByFileName fs p with
    | .ok r => r :: retrieveAllRequests fs ps
    | .error _ => retrieveAllRequests fs ps

/-! ### Response entity and fetch-and-store -/

/-- The raw outbound response handed back by `http.Client.Do` (an external
collaborator): Go's Do can return both a response and an error (the
redirect-stopped case). -/
structure HttpResp where
  statusCode : Int
  header : HeaderModel
  body : Bytes
  deriving Repr, DecidableEq

/-- `NewResponseFromHttp(resp, resp.Body)`: body wrapped in
`IoReaderToReadSeekCloser`. -/
def newResponseFromHttp (r : HttpResp) : RespModel :=
  ⟨r.statusCode, r.header, r.body, .ioReader⟩

/-- Fuel-indexed model of `IoReaderToReadSeekCloser.Close`, which invokes
itself unconditionally: with any finite call-stack budget the call consumes
the whole budget without producing a result (`none`). -/
def ioCloseLoop : Nat → Option Unit
  | 0 => none
  | n + 1 => ioCloseLoop n

/-- `Close` on a `Response`, dispatched on the dynamic type of the wrapped
body stream, with a fuel bound on the call stack. -/
def respCloseFuel (r : RespModel) (fuel : Nat) : Option Unit :=
  match r.bodyKind with
  | .ioReader => ioCloseLoop fuel
  | _ => some ()

def redirectMarkerText : Bytes := ("REDIRECT!!!").toList

/-- `store.FetchAndStoreResponse`: resolve the "dummy" key to the request
URL, perform the outbound call (its outcome `doResp`/`doErr` is an input,
the network being external), swallow errors containing the redirect
marker substring, and store the wrapped response.  Any other transport
error aborts before any store. -/
def fetchAndStoreResponse (d : DigestFns) (hs : String) (fs : FS)
    (request : ReqModel) (key : String) (override : Bool)
    (doResp : HttpResp) (doErr : Option String) : Except GoErr Unit × FS :=
  let key2 := if goToLower key = "dummy" then String.mk request.url.str else key
  match doErr with
  | some e =>
    if containsB e.toList redirectMarkerText then
      storeResponse d hs fs (newResponseFromHttp doResp) key2 override
    else (.error (.transport e.toList), fs)
  | none => storeResponse d hs fs (newResponseFromHttp doResp) key2 override


/-! ### Character-level facts -/

theorem char_toNat_ofNat {n : Nat} (h : n < 55296) : (Char.ofNat n).toNat = n := by
  rw [Char.ofNat, dif_pos (Or.inl h)]
  rfl

theorem lowChar_upper {c : Char} (h1 : 65 ≤ c.toNat) (h2 : c.toNat ≤ 90) :
    lowChar c = Char.ofNat (c.toNat + 32) := by
  unfold lowChar
  rw [if_pos (by simp [h1, h2])]

theorem lowChar_other {c : Char} (h : ¬(65 ≤ c.toNat ∧ c.toNat ≤ 90)) :
    lowChar c = c := by
  unfold lowChar
  rw [if_neg (by simpa using h)]

theorem upChar_lower {c : Char} (h1 : 97 ≤ c.toNat) (h2 : c.toNat ≤ 122) :
    upChar c = Char.ofNat (c.toNat - 32) := by
  unfold upChar
  rw [if_pos (by simp [h1, h2])]

theorem upChar_other {c : Char} (h : ¬(97 ≤ c.toNat ∧ c.toNat ≤ 122)) :
    upChar c = c := by
  unfold upChar
  rw [if_neg (by simpa using h)]

theorem lowChar_upChar (c : Char) : lowChar (upChar c) = lowChar c := by
  by_cases h : 97 ≤ c.toNat ∧ c.toNat ≤ 122
  · obtain ⟨h1, h2⟩ := h
    rw [upChar_lower h1 h2]
    have ht : (Char.ofNat (c.toNat - 32)).toNat = c.toNat - 32 :=
      char_toNat_ofNat (by omega)
    rw [lowChar_upper (by omega) (by omega), ht, lowChar_other (by omega)]
    have he : c.toNat - 32 + 32 = c.toNat := by omega
    rw [he, Char.ofNat_toNat]
  · rw [upChar_other h]

theorem lowChar_lowChar (c : Char) : lowChar (lowChar c) = lowChar c := by
  by_cases h : 65 ≤ c.toNat ∧ c.toNat ≤ 90
  · obtain ⟨h1, h2⟩ := h
    rw [lowChar_upper h1 h2]
    have ht : (Char.ofNat (c.toNat + 32)).toNat = c.toNat + 32 :=
      char_toNat_ofNat (by omega)
    rw [lowChar_other (by omega)]
  · rw [lowChar_other h, lowChar_other h]

theorem tokenChar_ne_space {c : Char} (h : isTokenChar c = true) : c ≠ ' ' := by
  intro hc; subst hc; exact absurd h (by decide)

theorem tokenChar_ne_tab {c : Char} (h : isTokenChar c = true) : c ≠ '\t' := by
  intro hc; subst hc; exact absurd h (by decide)

theorem tokenChar_ne_colon {c : Char} (h : isTokenChar c = true) : c ≠ ':' := by
  intro hc; subst hc; exact absurd h (by decide)

theorem tokenChar_ne_nl {c : Char} (h : isTokenChar c = true) : c ≠ '\n' := by
  intro hc; subst hc; exact absurd h (by decide)

theorem tokenChar_ne_cr {c : Char} (h : isTokenChar c = true) : c ≠ '\r' := by
  intro hc; subst hc; exact absurd h (by decide)

theorem tokenChar_not_spaceTab {c : Char} (h : isTokenChar c = true) :
    isSpaceTab c = false := by
  simp [isSpaceTab, tokenChar_ne_space h, tokenChar_ne_tab h]

/-! ### splitLines round trip -/

theorem splitLinesAux_cons_nl (r : Bytes) (acc : Bytes) :
    splitLinesAux ('\n' :: r) acc = (dropCRhead acc).reverse :: splitLinesAux r [] := by
  simp [splitLinesAux]

theorem splitLinesAux_cons_ne {c : Char} (h : c ≠ '\n') (r : Bytes) (acc : Bytes) :
    splitLinesAux (c :: r) acc = splitLinesAux r (c :: acc) := by
  simp [splitLinesAux, h]

theorem splitLinesAux_line {l : Bytes} (hl : '\n' ∉ l) (s : Bytes) (acc : Bytes) :
    splitLinesAux (l ++ '\r' :: '\n' :: s) acc = (acc.reverse ++ l) :: splitLinesAux s [] := by
  induction l generalizing acc with
  | nil =>
    rw [List.nil_append, splitLinesAux_cons_ne (by decide), splitLinesAux_cons_nl]
    simp [dropCRhead]
  | cons c r ih =>
    have hc : c ≠ '\n' := fun h => hl (h ▸ List.mem_cons_self c r)
    have hr : '\n' ∉ r := fun h => hl (List.mem_cons_of_mem c h)
    rw [List.cons_append, splitLinesAux_cons_ne hc, ih hr]
    simp

theorem splitLines_joinCRLF (ls : List Bytes) (h : ∀ l ∈ ls, '\n' ∉ l) :
    splitLines (joinCRLF ls) = ls := by
  induction ls with
  | nil => rfl
  | cons l rest ih =>
    have hl : '\n' ∉ l := h l (List.mem_cons_self l rest)
    have hrest : ∀ x ∈ rest, '\n' ∉ x := fun x hx => h x (List.mem_cons_of_mem l hx)
    show splitLinesAux (joinCRLF (l :: rest)) [] = l :: rest
    have hj : joinCRLF (l :: rest) = l ++ '\r' :: '\n' :: joinCRLF rest := by
      simp [joinCRLF, CRLF]
    rw [hj, splitLinesAux_line hl]
    simp only [List.reverse_nil, List.nil_append]
    exact congrArg _ (ih hrest)

theorem joinCRLF_append (a b : List Bytes) :
    joinCRLF (a ++ b) = joinCRLF a ++ joinCRLF b := by
  simp [joinCRLF]

/-! ### SplitN facts -/

theorem breakAtSpace_append {a : Bytes} (ha : ' ' ∉ a) (b : Bytes) :
    breakAtSpace (a ++ ' ' :: b) = some (a, b) := by
  induction a with
  | nil => simp [breakAtSpace]
  | cons c r ih =>
    have hc : c ≠ ' ' := fun h => ha (h ▸ List.mem_cons_self c r)
    have hr : ' ' ∉ r := fun h => ha (List.mem_cons_of_mem c h)
    simp [breakAtSpace, if_neg hc, ih hr]

theorem splitNSpace_three {m u : Bytes} (p : Bytes) (hm : ' ' ∉ m) (hu : ' ' ∉ u) :
    splitNSpace 3 (m ++ ' ' :: (u ++ ' ' :: p)) = [m, u, p] := by
  simp [splitNSpace, breakAtSpace_append hm, breakAtSpace_append hu]

/-! ### Canonical key facts -/

theorem canonAux_lowBytes (k : Bytes) : ∀ up, lowBytes (canonAux up k) = lowBytes k := by
  induction k with
  | nil => intro up; rfl
  | cons c r ih =>
    intro up
    simp only [canonAux, lowBytes, List.map]
    refine congrArg₂ _ ?_ (ih _)
    cases up with
    | true => simp [lowChar_upChar]
    | false => simp [lowChar_lowChar]

theorem canon_lowBytes (k : Bytes) :
    lowBytes (canonicalMIMEHeaderKey k) = lowBytes k := by
  unfold canonicalMIMEHeaderKey
  split
  · exact canonAux_lowBytes k true
  · rfl

theorem canonAux_length (k : Bytes) : ∀ up, (canonAux up k).length = k.length := by
  induction k with
  | nil => intro up; rfl
  | cons c r ih => intro up; simp [canonAux, ih]

theorem canon_ne_nil {k : Bytes} (h : k ≠ []) : canonicalMIMEHeaderKey k ≠ [] := by
  unfold canonicalMIMEHeaderKey
  split
  · intro hc
    have := canonAux_length k true
    rw [hc] at this
    cases k with
    | nil => exact h rfl
    | cons a t => simp at this
  · exact h

/-! ### Trim and cleanValue facts -/

theorem map_eq_self_mem {α} {f : α → α} {l : List α} (h : l.map f = l) :
    ∀ x ∈ l, f x = x := by
  induction l with
  | nil => simp
  | cons a t ih =>
    simp only [List.map, List.cons.injEq] at h
    intro x hx
    rcases List.mem_cons.mp hx with h1 | h2
    · rw [h1]; exact h.1
    · exact ih h.2 x h2

theorem trimLeftST_le (s : Bytes) : (trimLeftST s).length ≤ s.length := by
  induction s with
  | nil => simp [trimLeftST]
  | cons c r ih =>
    simp only [trimLeftST]
    split
    · exact Nat.le_trans ih (Nat.le_succ _)
    · simp

theorem trimLeftST_eq_self {s : Bytes} (h : (trimLeftST s).length = s.length) :
    trimLeftST s = s := by
  cases s with
  | nil => rfl
  | cons c r =>
    by_cases hc : isSpaceTab c = true
    · simp only [trimLeftST, if_pos hc] at h
      have := trimLeftST_le r
      simp only [List.length_cons] at h
      omega
    · simp only [trimLeftST, if_neg hc]

theorem trimRightST_le (s : Bytes) : (trimRightST s).length ≤ s.length := by
  unfold trimRightST
  calc (trimLeftST s.reverse).reverse.length = (trimLeftST s.reverse).length := by simp
    _ ≤ s.reverse.length := trimLeftST_le _
    _ = s.length := by simp

theorem cleanValue_self_parts {v : Bytes} (h : cleanValue v = v) :
    v.map (fun c => if c = '\n' || c = '\r' then ' ' else c) = v ∧ trimLeftST v = v := by
  have hlen : (cleanValue v).length = v.length := by rw [h]
  unfold cleanValue at hlen h
  set m := v.map (fun c => if c = '\n' || c = '\r' then ' ' else c) with hm
  have hml : m.length = v.length := by rw [hm]; simp
  have h1 : (trimLeftST m).length = m.length := by
    have ha := trimRightST_le (trimLeftST m)
    have hb := trimLeftST_le m
    omega
  have htl : trimLeftST m = m := trimLeftST_eq_self h1
  rw [htl] at h hlen
  have h2 : (trimLeftST m.reverse).length = m.reverse.length := by
    unfold trimRightST at hlen
    have hc := trimLeftST_le m.reverse
    simp only [List.length_reverse] at hlen hc ⊢
    omega
  have htr : trimRightST m = m := by
    unfold trimRightST
    rw [trimLeftST_eq_self h2]
    simp
  rw [htr] at h
  constructor
  · exact h
  · rw [← h]
    exact htl

theorem cleanValue_no_nl {v : Bytes} (h : cleanValue v = v) : '\n' ∉ v := by
  intro hmem
  have := map_eq_self_mem (cleanValue_self_parts h).1 '\n' hmem
  simp at this

theorem cleanValue_no_cr {v : Bytes} (h : cleanValue v = v) : '\r' ∉ v := by
  intro hmem
  have := map_eq_self_mem (cleanValue_self_parts h).1 '\r' hmem
  simp at this

theorem cleanValue_trimLeft {v : Bytes} (h : cleanValue v = v) : trimLeftST v = v :=
  (cleanValue_self_parts h).2

/-! ### MIME reader on encoded header blocks -/

def lineFor (kv : Bytes × Bytes) : Bytes := kv.1 ++ ':' :: ' ' :: kv.2

/-- One (key, value) pair per emitted header line. -/
def flatPairs (h : HeaderModel) : List (Bytes × Bytes) :=
  h.flatMap (fun kv => kv.2.map (fun v => (kv.1, v)))

def foldAdd (acc : HeaderModel) (ps : List (Bytes × Bytes)) : HeaderModel :=
  ps.foldl (fun a pv => addHeaderValue a (canonicalMIMEHeaderKey pv.1) pv.2) acc

/-- Validity of a single header line's parts for the round trip. -/
def PairValid (pv : Bytes × Bytes) : Prop :=
  pv.1 ≠ [] ∧ pv.1.all isTokenChar = true ∧ trimLeftST pv.2 = pv.2

theorem breakAtColon_append {k : Bytes} (hk : ':' ∉ k) (v : Bytes) :
    breakAtColon (k ++ ':' :: v) = some (k, v) := by
  induction k with
  | nil => simp [breakAtColon]
  | cons c r ih =>
    have hc : c ≠ ':' := fun h => hk (h ▸ List.mem_cons_self c r)
    have hr : ':' ∉ r := fun h => hk (List.mem_cons_of_mem c h)
    simp [breakAtColon, if_neg hc, ih hr]

theorem token_keys_no_colon {k : Bytes} (hkt : k.all isTokenChar = true) : ':' ∉ k := by
  intro hm
  exact tokenChar_ne_colon (List.all_eq_true.mp hkt _ hm) rfl

theorem lineFor_not_spaceTab {k v : Bytes} (hk : k ≠ [])
    (hkt : k.all isTokenChar = true) :
    headIsSpaceTab (lineFor (k, v)) = false := by
  cases k with
  | nil => exact absurd rfl hk
  | cons c r =>
    have hc : isTokenChar c = true := List.all_eq_true.mp hkt _ (List.mem_cons_self c r)
    simp [lineFor, headIsSpaceTab, tokenChar_not_spaceTab hc]

theorem lineFor_ne_nil {k v : Bytes} (hk : k ≠ []) : (lineFor (k, v)).isEmpty = false := by
  cases k with
  | nil => exact absurd rfl hk
  | cons c r => simp [lineFor]

theorem commitLine_lineFor {k v : Bytes} (hp : PairValid (k, v)) (acc : HeaderModel) :
    commitLine acc (lineFor (k, v)) =
      .ok (addHeaderValue acc (canonicalMIMEHeaderKey k) v) := by
  obtain ⟨hk, hkt, hv⟩ := hp
  unfold commitLine lineFor
  rw [breakAtColon_append (token_keys_no_colon hkt)]
  simp only
  rw [if_neg (by simpa using canon_ne_nil hk)]
  have : trimLeftST (' ' :: v) = v := by
    simp only [trimLeftST, isSpaceTab]
    rw [if_pos (by simp)]
    exact hv
  rw [this]

theorem mimeLoop_run (ps : List (Bytes × Bytes)) :
    ∀ (acc : HeaderModel) (p0 : Bytes × Bytes) (tail : List Bytes),
    PairValid p0 → (∀ pv ∈ ps, PairValid pv) →
    mimeLoop (ps.map lineFor ++ [] :: tail) acc (some (lineFor p0)) =
      .ok (foldAdd (addHeaderValue acc (canonicalMIMEHeaderKey p0.1) p0.2) ps, tail) := by
  induction ps with
  | nil =>
    intro acc p0 tail hp0 _
    obtain ⟨k0, v0⟩ := p0
    simp only [List.map, List.nil_append, mimeLoop, headIsSpaceTab, isSpaceTab]
    rw [if_neg (by simp), commitLine_lineFor hp0]
    simp [foldAdd]
  | cons p1 ps' ih =>
    intro acc p0 tail hp0 hps
    obtain ⟨k0, v0⟩ := p0
    obtain ⟨k1, v1⟩ := p1
    have hp1 : PairValid (k1, v1) := hps _ (List.mem_cons_self _ _)
    have hps' : ∀ pv ∈ ps', PairValid pv := fun pv hv => hps pv (List.mem_cons_of_mem _ hv)
    simp only [List.map, List.cons_append, mimeLoop]
    rw [if_neg (by rw [lineFor_not_spaceTab hp1.1 hp1.2.1]; simp),
        commitLine_lineFor hp0]
    simp only [List.append_eq]
    rw [if_neg (by rw [lineFor_ne_nil hp1.1]; simp)]
    rw [ih _ (k1, v1) tail hp1 hps']
    simp [foldAdd]

theorem mimeLoop_block (hm : HeaderModel) (acc : HeaderModel) (tail : List Bytes)
    (hv : ∀ pv ∈ flatPairs hm, PairValid pv) :
    mimeLoop ((flatPairs hm).map lineFor ++ [] :: tail) acc none =
      .ok (foldAdd acc (flatPairs hm), tail) := by
  cases hfp : flatPairs hm with
  | nil => simp [mimeLoop, foldAdd]
  | cons p0 ps =>
    have hp0 : PairValid p0 := by rw [hfp] at hv; exact hv _ (List.mem_cons_self _ _)
    have hps : ∀ pv ∈ ps, PairValid pv := by
      rw [hfp] at hv; exact fun pv h => hv pv (List.mem_cons_of_mem _ h)
    simp only [List.map, List.cons_append, mimeLoop, List.append_eq]
    rw [if_neg (by rw [lineFor_ne_nil hp0.1]; simp)]
    rw [mimeLoop_run ps acc p0 tail hp0 hps]
    simp [foldAdd]

/-! ### Rebuilding the header map from the emitted lines -/

theorem addHeaderValue_notmem {k v : Bytes} :
    ∀ {acc : HeaderModel}, k ∉ acc.map Prod.fst →
    addHeaderValue acc k v = acc ++ [(k, [v])] := by
  intro acc
  induction acc with
  | nil => intro _; rfl
  | cons kv t ih =>
    intro h
    obtain ⟨k0, vs0⟩ := kv
    have hne : k0 ≠ k := by
      intro he; exact h (by simp [he])
    simp only [addHeaderValue, if_neg hne, List.cons_append, List.cons.injEq, true_and]
    exact ih (fun hm => h (by simp [hm]))

theorem addHeaderValue_last {k v : Bytes} (cur : List Bytes) :
    ∀ {acc0 : HeaderModel}, k ∉ acc0.map Prod.fst →
    addHeaderValue (acc0 ++ [(k, cur)]) k v = acc0 ++ [(k, cur ++ [v])] := by
  intro acc0
  induction acc0 with
  | nil => intro _; simp [addHeaderValue]
  | cons kv t ih =>
    intro h
    obtain ⟨k0, vs0⟩ := kv
    have hne : k0 ≠ k := by
      intro he; exact h (by simp [he])
    simp only [List.cons_append, addHeaderValue, if_neg hne, List.cons.injEq, true_and]
    exact ih (fun hm => h (by simp [hm]))

theorem foldAdd_same_key {k : Bytes} (vs : List Bytes) :
    ∀ (acc0 : HeaderModel) (cur : List Bytes),
    canonicalMIMEHeaderKey k ∉ acc0.map Prod.fst →
    foldAdd (acc0 ++ [(canonicalMIMEHeaderKey k, cur)]) (vs.map (fun v => (k, v))) =
      acc0 ++ [(canonicalMIMEHeaderKey k, cur ++ vs)] := by
  induction vs with
  | nil => intro acc0 cur _; simp [foldAdd]
  | cons v vs' ih =>
    intro acc0 cur h
    show foldAdd (addHeaderValue (acc0 ++ [(canonicalMIMEHeaderKey k, cur)])
        (canonicalMIMEHeaderKey k) v) (vs'.map (fun v => (k, v))) =
      acc0 ++ [(canonicalMIMEHeaderKey k, cur ++ v :: vs')]
    rw [addHeaderValue_last cur h, ih acc0 (cur ++ [v]) h]
    simp

theorem foldAdd_append (a b : List (Bytes × Bytes)) (acc : HeaderModel) :
    foldAdd acc (a ++ b) = foldAdd (foldAdd acc a) b := by
  simp [foldAdd, List.foldl_append]

theorem foldAdd_flat (hm : HeaderModel) :
    ∀ (acc : HeaderModel),
    (∀ kv ∈ hm, kv.2 ≠ []) →
    ((hm.map (fun kv => canonicalMIMEHeaderKey kv.1)).Pairwise (fun a b => a ≠ b)) →
    (∀ kv ∈ hm, canonicalMIMEHeaderKey kv.1 ∉ acc.map Prod.fst) →
    foldAdd acc (flatPairs hm) =
      acc ++ hm.map (fun kv => (canonicalMIMEHeaderKey kv.1, kv.2)) := by
  induction hm with
  | nil => intro acc _ _ _; simp [foldAdd, flatPairs]
  | cons kv t ih =>
    intro acc hvs hpw hacc
    obtain ⟨k, vs⟩ := kv
    have hfp : flatPairs ((k, vs) :: t) = vs.map (fun v => (k, v)) ++ flatPairs t := by
      simp [flatPairs]
    rw [hfp, foldAdd_append]
    have hknotin : canonicalMIMEHeaderKey k ∉ acc.map Prod.fst :=
      hacc _ (List.mem_cons_self _ _)
    have hvs0 : vs ≠ [] := hvs _ (List.mem_cons_self _ _)
    have hfirst : foldAdd acc (vs.map (fun v => (k, v))) =
        acc ++ [(canonicalMIMEHeaderKey k, vs)] := by
      cases vs with
      | nil => exact absurd rfl hvs0
      | cons v vs' =>
        show foldAdd (addHeaderValue acc (canonicalMIMEHeaderKey k) v)
            (vs'.map (fun v => (k, v))) = acc ++ [(canonicalMIMEHeaderKey k, v :: vs')]
        rw [addHeaderValue_notmem hknotin, foldAdd_same_key vs' acc [v] hknotin]
        rfl
    rw [hfirst]
    rw [List.map_cons] at hpw
    obtain ⟨hhead0, hpwt⟩ := List.pairwise_cons.mp hpw
    have hhead : ∀ kv2 ∈ t, canonicalMIMEHeaderKey k ≠ canonicalMIMEHeaderKey kv2.1 := by
      intro kv2 h2
      exact hhead0 _ (List.mem_map_of_mem _ h2)
    rw [ih (acc ++ [(canonicalMIMEHeaderKey k, vs)])
        (fun kv2 h2 => hvs _ (List.mem_cons_of_mem _ h2)) hpwt
        (by
          intro kv2 h2
          simp only [List.map_append, List.mem_append]
          rintro (hin | hin)
          · exact hacc _ (List.mem_cons_of_mem _ h2) hin
          · simp at hin
            exact hhead _ h2 hin.symm)]
    simp

/-- Full `ReadMIMEHeader` on an encoded block: the emitted lines followed by
the blank terminator parse back to the map with canonicalized keys. -/
theorem readMIMEHeader_encode (hm : HeaderModel) (tail : List Bytes)
    (h1 : ∀ kv ∈ hm, kv.1 ≠ [] ∧ kv.1.all isTokenChar = true ∧ kv.2 ≠ [] ∧
          ∀ v ∈ kv.2, trimLeftST v = v)
    (h2 : (hm.map (fun kv => canonicalMIMEHeaderKey kv.1)).Pairwise (fun a b => a ≠ b)) :
    readMIMEHeader ((flatPairs hm).map lineFor ++ [] :: tail) =
      .ok (hm.map (fun kv => (canonicalMIMEHeaderKey kv.1, kv.2)), tail) := by
  have hmem : ∀ pv ∈ flatPairs hm, ∃ kv ∈ hm, pv.1 = kv.1 ∧ pv.2 ∈ kv.2 := by
    intro pv hpv
    simp only [flatPairs, List.mem_flatMap, List.mem_map] at hpv
    obtain ⟨kv, hkv, v, hv, hpveq⟩ := hpv
    exact ⟨kv, hkv, by rw [← hpveq], by rw [← hpveq]; exact hv⟩
  have hv : ∀ pv ∈ flatPairs hm, PairValid pv := by
    intro pv hpv
    obtain ⟨kv, hkv, he1, he2⟩ := hmem pv hpv
    obtain ⟨ha, hb, _, hd⟩ := h1 kv hkv
    exact ⟨he1 ▸ ha, he1 ▸ hb, hd _ he2⟩
  have hblock := mimeLoop_block hm [] tail hv
  rw [foldAdd_flat hm [] (fun kv hkv => (h1 kv hkv).2.2.1) h2 (by simp)] at hblock
  unfold readMIMEHeader
  cases hfp : flatPairs hm with
  | nil =>
    rw [hfp] at hblock
    simp only [hfp, List.map, List.nil_append] at hblock ⊢
    rw [show headIsSpaceTab [] = false from rfl]
    simpa using hblock
  | cons p0 ps =>
    have hp0 : PairValid p0 := by rw [hfp] at hv; exact hv _ (List.mem_cons_self _ _)
    rw [hfp] at hblock
    simp only [hfp, List.map, List.cons_append] at hblock ⊢
    rw [if_neg (by
      rw [show headIsSpaceTab (lineFor p0) = false from by
        obtain ⟨ka, va⟩ := p0
        exact lineFor_not_spaceTab hp0.1 hp0.2.1]
      simp)]
    simpa using hblock

/-! ### Header lookup equivalences -/

/-- All values stored under names matching `name` through the lens `f`,
in entry order.  With `f = id` this is exact map lookup; with
`f = lowBytes` it is case-insensitive lookup. -/
def lookupBy (f : Bytes → Bytes) (h : HeaderModel) (name : Bytes) : List Bytes :=
  ((h.filter (fun kv => f kv.1 = f name)).map Prod.snd).flatten

/-- Case-insensitive header-block equality: same values under every name,
comparing names case-insensitively. -/
def headerCIEq (h1 h2 : HeaderModel) : Prop :=
  ∀ name, lookupBy lowBytes h1 name = lookupBy lowBytes h2 name

/-- Header-block equality as finite maps: same values under every name. -/
def headerMapEq (h1 h2 : HeaderModel) : Prop :=
  ∀ name, lookupBy id h1 name = lookupBy id h2 name

theorem filter_length_le_one {f : Bytes → Bytes} {h : HeaderModel}
    (hpw : h.Pairwise (fun a b => f a.1 ≠ f b.1)) (name : Bytes) :
    (h.filter (fun kv => f kv.1 = f name)).length ≤ 1 := by
  induction h with
  | nil => simp
  | cons kv t ih =>
    obtain ⟨hhead, htail⟩ := List.pairwise_cons.mp hpw
    by_cases hc : f kv.1 = f name
    · have : t.filter (fun kv2 => f kv2.1 = f name) = [] := by
        apply List.filter_eq_nil_iff.mpr
        intro kv2 h2
        simp only [decide_eq_true_eq]
        intro he
        exact hhead kv2 h2 (by rw [hc, he])
      simp [List.filter_cons, hc, this]
    · rw [List.filter_cons, if_neg (by simp [hc])]
      exact ih htail

theorem lookupBy_perm {f : Bytes → Bytes} {h1 h2 : HeaderModel}
    (hp : List.Perm h1 h2) (hpw : h1.Pairwise (fun a b => f a.1 ≠ f b.1))
    (name : Bytes) :
    lookupBy f h1 name = lookupBy f h2 name := by
  have hfp : List.Perm (h1.filter (fun kv => f kv.1 = f name))
      (h2.filter (fun kv => f kv.1 = f name)) := hp.filter _
  have hlen1 := filter_length_le_one hpw name
  have heq : h1.filter (fun kv => f kv.1 = f name) =
      h2.filter (fun kv => f kv.1 = f name) := by
    cases hf : h1.filter (fun kv => f kv.1 = f name) with
    | nil =>
      rw [hf] at hfp
      exact List.Perm.nil_eq hfp
    | cons a t =>
      rw [hf] at hfp hlen1
      cases t with
      | nil => exact (List.perm_singleton.mp hfp.symm).symm
      | cons b t2 => simp at hlen1
  unfold lookupBy
  rw [heq]

theorem lookupBy_low_map_canon (h : HeaderModel) (name : Bytes) :
    lookupBy lowBytes (h.map (fun kv => (canonicalMIMEHeaderKey kv.1, kv.2))) name =
      lookupBy lowBytes h name := by
  unfold lookupBy
  rw [List.filter_map]
  have h1 : ((fun kv : Bytes × List Bytes => decide (lowBytes kv.1 = lowBytes name)) ∘
      (fun kv : Bytes × List Bytes => (canonicalMIMEHeaderKey kv.1, kv.2))) =
      (fun kv : Bytes × List Bytes => decide (lowBytes kv.1 = lowBytes name)) := by
    funext kv
    simp [canon_lowBytes]
  rw [h1, List.map_map]
  have h2 : (Prod.snd ∘ fun kv : Bytes × List Bytes => (canonicalMIMEHeaderKey kv.1, kv.2)) =
      (Prod.snd : Bytes × List Bytes → List Bytes) := funext fun kv => rfl
  rw [h2]

/-! ### Validity of header blocks and the wire assembly -/

/-- A well-formed `http.Header` value: non-empty token-char names, no two
names equal case-insensitively (Go code builds headers through
`Add`/`Set`, which canonicalize names, so distinct map keys never collide
case-insensitively), non-empty value lists, and values already in the
form `Header.Write` emits (no newlines, no surrounding space). -/
def ValidHeader (h : HeaderModel) : Prop :=
  (∀ kv ∈ h, kv.1 ≠ [] ∧ kv.1.all isTokenChar = true ∧ kv.2 ≠ [] ∧
    ∀ v ∈ kv.2, cleanValue v = v) ∧
  h.Pairwise (fun a b => lowBytes a.1 ≠ lowBytes b.1)

theorem token_list_no_nl {k : Bytes} (hk : k.all isTokenChar = true) : '\n' ∉ k :=
  fun hm => tokenChar_ne_nl (List.all_eq_true.mp hk _ hm) rfl

theorem token_list_no_space {k : Bytes} (hk : k.all isTokenChar = true) : ' ' ∉ k :=
  fun hm => tokenChar_ne_space (List.all_eq_true.mp hk _ hm) rfl

theorem sortHeader_perm (h : HeaderModel) : List.Perm (sortHeader h) h :=
  List.perm_insertionSort _ h

theorem headerLines_eq_flat (h : HeaderModel)
    (hv : ∀ kv ∈ h, ∀ v ∈ kv.2, cleanValue v = v) :
    headerLines h = (flatPairs (sortHeader h)).map lineFor := by
  unfold headerLines flatPairs
  rw [List.map_flatMap]
  unfold List.flatMap
  congr 1
  apply List.map_eq_map_iff.mpr
  intro kv hkv
  have hkv2 : kv ∈ h := (sortHeader_perm h).subset hkv
  rw [List.map_map]
  apply List.map_eq_map_iff.mpr
  intro v hvv
  rw [hv kv hkv2 v hvv]
  rfl

theorem headerLines_no_nl (h : HeaderModel)
    (hvalid : ∀ kv ∈ h, kv.1.all isTokenChar = true ∧ ∀ v ∈ kv.2, cleanValue v = v) :
    ∀ l ∈ headerLines h, '\n' ∉ l := by
  unfold headerLines
  intro l hl
  rw [List.mem_flatMap] at hl
  obtain ⟨kv, hkv, hl2⟩ := hl
  rw [List.mem_map] at hl2
  obtain ⟨v, hv, hleq⟩ := hl2
  have hkv2 : kv ∈ h := (sortHeader_perm h).subset hkv
  obtain ⟨htok, hclean⟩ := hvalid kv hkv2
  intro hmem
  rw [← hleq] at hmem
  rcases List.mem_append.mp hmem with hin | hin
  · exact token_list_no_nl htok hin
  · rcases List.mem_cons.mp hin with he | hin2
    · exact absurd he (by decide)
    · rcases List.mem_cons.mp hin2 with he | hin3
      · exact absurd he (by decide)
      · rw [hclean v hv] at hin3
        exact cleanValue_no_nl (hclean v hv) hin3

theorem wire_assemble (x : Bytes) (ls : List Bytes) :
    (x ++ CRLF ++ (joinCRLF ls ++ CRLF)) = joinCRLF (x :: (ls ++ [[]])) := by
  simp [joinCRLF, joinCRLF_append]

theorem storeRequestBytes_wire {m u p host : Bytes} (h : HeaderModel)
    (hab : urlIsAbs ⟨u⟩ = true) :
    storeRequestBytes ⟨m, ⟨u⟩, p, host, h⟩ =
      joinCRLF ((m ++ ' ' :: (u ++ ' ' :: p)) :: (headerLines h ++ [[]])) := by
  unfold storeRequestBytes headersBlock
  rw [if_pos hab]
  simp only []
  rw [← wire_assemble]

theorem parseURL_ok {u : Bytes} (hu2 : ∀ c ∈ u, isCtlChar c = false)
    (hab : urlIsAbs ⟨u⟩ = true) : parseURL u = some ⟨u⟩ := by
  unfold parseURL
  rw [if_neg (by
    rw [List.any_eq_true]
    rintro ⟨c, hc, hctl⟩
    rw [hu2 c hc] at hctl
    exact absurd hctl (by decide))]
  cases hgs : getSchemeAux [] u with
  | error e => exfalso; simp [urlIsAbs, hgs] at hab
  | ok o =>
    cases o with
    | none => exfalso; simp [urlIsAbs, hgs] at hab
    | some sr => rfl

theorem newRequest_ok {m u : Bytes} (hm1 : m ≠ []) (hm2 : m.all isTokenChar = true)
    (hu2 : ∀ c ∈ u, isCtlChar c = false) (hab : urlIsAbs ⟨u⟩ = true) :
    newRequest m u = .ok ⟨m, ⟨u⟩, ("HTTP/1.1").toList, [], []⟩ := by
  unfold newRequest
  have hme : m.isEmpty = false := by
    cases m with
    | nil => exact absurd rfl hm1
    | cons a t => rfl
  rw [hme]
  simp only [Bool.false_eq_true, if_false]
  rw [show validMethod m = true from by simp [validMethod, hme, hm2]]
  simp only [Bool.not_true, Bool.false_eq_true, if_false]
  rw [parseURL_ok hu2 hab]

/-- Decoding an encoded request record: the method and URL come back
verbatim, the protocol is the decoder's fixed "HTTP/1.1", and the header
map comes back sorted with canonicalized names. -/
theorem readRequest_encode {m u p host : Bytes} {h : HeaderModel}
    (hm1 : m ≠ []) (hm2 : m.all isTokenChar = true)
    (hu1 : ' ' ∉ u) (hu2 : ∀ c ∈ u, isCtlChar c = false)
    (hab : urlIsAbs ⟨u⟩ = true)
    (hp1 : '\n' ∉ p)
    (hh : ValidHeader h) :
    readRequest (storeRequestBytes ⟨m, ⟨u⟩, p, host, h⟩) =
      .ok ⟨m, ⟨u⟩, ("HTTP/1.1").toList, [],
           (sortHeader h).map (fun kv => (canonicalMIMEHeaderKey kv.1, kv.2))⟩ := by
  obtain ⟨hent, hpw⟩ := hh
  have hnl : ∀ l ∈ (m ++ ' ' :: (u ++ ' ' :: p)) :: (headerLines h ++ [[]]), '\n' ∉ l := by
    intro l hl
    rcases List.mem_cons.mp hl with he | hin
    · subst he
      intro hmem
      rcases List.mem_append.mp hmem with hin2 | hin2
      · exact token_list_no_nl hm2 hin2
      · rcases List.mem_cons.mp hin2 with he2 | hin3
        · exact absurd he2 (by decide)
        · rcases List.mem_append.mp hin3 with hin4 | hin4
          · have := hu2 _ hin4
            exact absurd this (by decide)
          · rcases List.mem_cons.mp hin4 with he3 | hin5
            · exact absurd he3 (by decide)
            · exact hp1 hin5
    · rcases List.mem_append.mp hin with hin2 | hin2
      · exact headerLines_no_nl h
          (fun kv hkv => ⟨(hent kv hkv).2.1, (hent kv hkv).2.2.2⟩) l hin2
      · rcases List.mem_cons.mp hin2 with he2 | hin3
        · subst he2; simp
        · simp at hin3
  rw [storeRequestBytes_wire h hab]
  unfold readRequest
  rw [splitLines_joinCRLF _ hnl]
  simp only []
  rw [splitNSpace_three p (token_list_no_space hm2) hu1]
  simp only []
  rw [headerLines_eq_flat h (fun kv hkv => (hent kv hkv).2.2.2)]
  have hcond1 : ∀ kv ∈ sortHeader h, kv.1 ≠ [] ∧ kv.1.all isTokenChar = true ∧
      kv.2 ≠ [] ∧ ∀ v ∈ kv.2, trimLeftST v = v := by
    intro kv hkv
    have hkv2 : kv ∈ h := (sortHeader_perm h).subset hkv
    obtain ⟨ha, hb, hc, hd⟩ := hent kv hkv2
    exact ⟨ha, hb, hc, fun v hv => cleanValue_trimLeft (hd v hv)⟩
  have hpws : (sortHeader h).Pairwise (fun a b => lowBytes a.1 ≠ lowBytes b.1) := by
    refine (List.Perm.pairwise_iff ?_ (sortHeader_perm h)).mpr hpw
    intro a b hab2 hcc
    exact hab2 hcc.symm
  have hcond2 : ((sortHeader h).map
      (fun kv => canonicalMIMEHeaderKey kv.1)).Pairwise (fun a b => a ≠ b) := by
    rw [List.pairwise_map]
    refine hpws.imp ?_
    intro a b hR hceq
    exact hR (by rw [← canon_lowBytes a.1, hceq, canon_lowBytes])
  rw [show (flatPairs (sortHeader h)).map lineFor ++ [[]] =
      (flatPairs (sortHeader h)).map lineFor ++ [] :: [] from rfl]
  rw [readMIMEHeader_encode (sortHeader h) [] hcond1 hcond2]
  simp only []
  rw [newRequest_ok hm1 hm2 hu2 hab]

/-! ### Claim C1: request wire-format round trip -/

/-- C1, counterexample to the claim as stated: encoding a request whose
protocol is "HTTP/1.0" and decoding it back yields a request whose
protocol is the decoder's fixed "HTTP/1.1", not the encoded protocol —
`readRequest` builds the result with `http.NewRequest` and drops the third
field of the request line. -/
theorem c1_protocol_not_roundtripped :
    (readRequest (storeRequestBytes ⟨("GET").toList, ⟨("http://a/").toList⟩,
        ("HTTP/1.0").toList, [], []⟩)).toOption.map ReqModel.proto =
      some (("HTTP/1.1").toList) ∧
    some (("HTTP/1.1").toList) ≠
      some (ReqModel.proto ⟨("GET").toList, ⟨("http://a/").toList⟩,
        ("HTTP/1.0").toList, [], []⟩) := by
  constructor
  · decide
  · decide

/-- C1 (amended): for every valid request (token method, absolute
space-free control-free URL, newline-free protocol, valid header block),
decoding the bytes `StoreRequest` serializes yields a request whose method
and URL equal the originals and whose header block equals the original
under case-insensitive name comparison; the decoded protocol, however, is
always the fixed "HTTP/1.1" (so the protocol round-trips only when the
original protocol is "HTTP/1.1"). -/
theorem c1_request_roundtrip (m u p host : Bytes) (h : HeaderModel)
    (hm1 : m ≠ []) (hm2 : m.all isTokenChar = true)
    (hu1 : ' ' ∉ u) (hu2 : ∀ c ∈ u, isCtlChar c = false)
    (hab : urlIsAbs ⟨u⟩ = true) (hp1 : '\n' ∉ p)
    (hh : ValidHeader h) :
    ∃ req, readRequest (storeRequestBytes ⟨m, ⟨u⟩, p, host, h⟩) = .ok req ∧
      req.method = m ∧ req.url = ⟨u⟩ ∧ req.proto = ("HTTP/1.1").toList ∧
      headerCIEq req.header h := by
  refine ⟨_, readRequest_encode hm1 hm2 hu1 hu2 hab hp1 hh, rfl, rfl, rfl, ?_⟩
  have hpws : (sortHeader h).Pairwise (fun a b => lowBytes a.1 ≠ lowBytes b.1) := by
    refine (List.Perm.pairwise_iff ?_ (sortHeader_perm h)).mpr hh.2
    intro a b hab2 hcc
    exact hab2 hcc.symm
  intro name
  rw [lookupBy_low_map_canon]
  exact lookupBy_perm (sortHeader_perm h) hpws name

/-- C1 witness: the round trip at a concrete request. -/
theorem c1_request_roundtrip_witness :
    ∃ req, readRequest (storeRequestBytes ⟨("GET").toList,
        ⟨("http://example.com/a").toList⟩, ("HTTP/1.1").toList, [],
        [(("Host").toList, [("example.com").toList])]⟩) = .ok req ∧
      req.method = ("GET").toList ∧ req.url = ⟨("http://example.com/a").toList⟩ ∧
      req.proto = ("HTTP/1.1").toList ∧
      headerCIEq req.header [(("Host").toList, [("example.com").toList])] :=
  c1_request_roundtrip _ _ _ _ _ (by decide) (by decide) (by decide) (by decide)
    (by decide) (by decide) ⟨by decide, by decide⟩

/-! ### Decimal round trip -/

theorem natToDigitsF_mono : ∀ (f g n : Nat), n < f → n < g →
    natToDigitsF f n = natToDigitsF g n := by
  intro f
  induction f with
  | zero => intro g n h; omega
  | succ f' ih =>
    intro g n hf hg
    cases g with
    | zero => omega
    | succ g' =>
      show natToDigitsF (f' + 1) n = natToDigitsF (g' + 1) n
      unfold natToDigitsF
      split
      · rfl
      · have h10 : 10 ≤ n := by omega
        have hd : n / 10 < n := Nat.div_lt_self (by omega) (by omega)
        rw [ih g' (n / 10) (by omega) (by omega)]

theorem natToDigits_unfold (n : Nat) :
    natToDigits n = if n < 10 then [digitChar n]
      else natToDigits (n / 10) ++ [digitChar (n % 10)] := by
  show natToDigitsF (n + 1) n = _
  unfold natToDigitsF
  split
  · rfl
  · have h10 : 10 ≤ n := by omega
    have hd : n / 10 < n := Nat.div_lt_self (by omega) (by omega)
    rw [natToDigitsF_mono n (n / 10 + 1) (n / 10) (by omega) (by omega)]
    rfl

theorem goAtoi_cons (c : Char) (r : Bytes) :
    goAtoi (c :: r) = if c = '+' then (parseNatDigits r).map Int.ofNat
      else if c = '-' then (parseNatDigits r).map (fun n => -(Int.ofNat n))
      else (parseNatDigits (c :: r)).map Int.ofNat := rfl

theorem digitChar_isDigit {d : Nat} (h : d < 10) : isDigitChar (digitChar d) = true := by
  interval_cases d <;> decide

theorem digitChar_toNat {d : Nat} (h : d < 10) : (digitChar d).toNat - 48 = d := by
  interval_cases d <;> decide

theorem digit_ne {c : Char} (h : isDigitChar c = true) :
    c ≠ ' ' ∧ c ≠ '\n' ∧ c ≠ '\r' ∧ c ≠ '+' ∧ c ≠ '-' := by
  refine ⟨?_, ?_, ?_, ?_, ?_⟩ <;> (intro he; subst he; exact absurd h (by decide))

theorem natToDigits_ne_nil (n : Nat) : natToDigits n ≠ [] := by
  rw [natToDigits_unfold]
  split
  · simp
  · simp

theorem natToDigits_all_digit (n : Nat) : ∀ c ∈ natToDigits n, isDigitChar c = true := by
  induction n using Nat.strong_induction_on with
  | _ n ih =>
    rw [natToDigits_unfold]
    split
    · intro c hc
      rw [List.mem_singleton.mp hc]
      exact digitChar_isDigit (by omega)
    · intro c hc
      rcases List.mem_append.mp hc with hin | hin
      · have h10 : 10 ≤ n := by omega
        exact ih (n / 10) (Nat.div_lt_self (by omega) (by omega)) c hin
      · rw [List.mem_singleton.mp hin]
        exact digitChar_isDigit (Nat.mod_lt _ (by omega))

theorem parseNatDigitsAux_digits (n : Nat) : ∀ (rest : Bytes) (acc : Nat),
    parseNatDigitsAux (natToDigits n ++ rest) acc =
      parseNatDigitsAux rest (acc * 10 ^ (natToDigits n).length + n) := by
  induction n using Nat.strong_induction_on with
  | _ n ih =>
    intro rest acc
    by_cases h : n < 10
    · rw [natToDigits_unfold, if_pos h]
      simp only [List.cons_append, List.nil_append, parseNatDigitsAux,
        digitChar_isDigit h, if_true, List.length_singleton]
      rw [show (digitChar n).toNat - 48 = n from digitChar_toNat h]
      norm_num
    · rw [natToDigits_unfold, if_neg h]
      have h10 : 10 ≤ n := by omega
      have hd : n / 10 < n := Nat.div_lt_self (by omega) (by omega)
      rw [List.append_assoc, ih (n / 10) hd, List.cons_append, List.nil_append]
      simp only [parseNatDigitsAux, digitChar_isDigit (Nat.mod_lt _ (show 0 < 10 by omega)),
        if_true]
      rw [show (digitChar (n % 10)).toNat - 48 = n % 10 from
        digitChar_toNat (Nat.mod_lt _ (by omega))]
      congr 1
      have hlen : (natToDigits (n / 10) ++ [digitChar (n % 10)]).length =
          (natToDigits (n / 10)).length + 1 := by simp
      rw [hlen, pow_succ]
      have := Nat.div_add_mod n 10
      ring_nf
      omega

theorem parseNatDigits_natToDigits (n : Nat) :
    parseNatDigits (natToDigits n) = some n := by
  unfold parseNatDigits
  rw [if_neg (by
    intro he
    exact natToDigits_ne_nil n (List.isEmpty_iff.mp he))]
  have := parseNatDigitsAux_digits n [] 0
  rw [List.append_nil] at this
  rw [this]
  simp [parseNatDigitsAux]

theorem goAtoi_goItoa (i : Int) : goAtoi (goItoa i) = some i := by
  unfold goItoa
  split_ifs with h
  · show goAtoi ('-' :: natToDigits i.natAbs) = some i
    rw [goAtoi_cons, if_neg (by decide), if_pos rfl, parseNatDigits_natToDigits]
    simp only [Option.map_some']
    congr 1
    simp only [Int.ofNat_eq_natCast]
    omega
  · cases hnd : natToDigits i.natAbs with
    | nil => exact absurd hnd (natToDigits_ne_nil _)
    | cons c cs =>
      have hcd : isDigitChar c = true :=
        natToDigits_all_digit _ c (hnd ▸ List.mem_cons_self c cs)
      show goAtoi (c :: cs) = some i
      rw [goAtoi_cons, if_neg (digit_ne hcd).2.2.2.1, if_neg (digit_ne hcd).2.2.2.2]
      rw [← hnd, parseNatDigits_natToDigits]
      simp only [Option.map_some']
      congr 1
      simp only [Int.ofNat_eq_natCast]
      omega

theorem goItoa_no_nl (i : Int) : ' ' ∉ goItoa i ∧ '\n' ∉ goItoa i := by
  have hmem : ∀ c ∈ goItoa i, c = '-' ∨ isDigitChar c = true := by
    unfold goItoa
    split
    · intro c hc
      rcases List.mem_cons.mp hc with he | hin
      · exact Or.inl he
      · exact Or.inr (natToDigits_all_digit _ c hin)
    · intro c hc
      exact Or.inr (natToDigits_all_digit _ c hc)
  constructor
  · intro hin
    rcases hmem _ hin with he | hd
    · exact absurd he (by decide)
    · exact (digit_ne hd).1 rfl
  · intro hin
    rcases hmem _ hin with he | hd
    · exact absurd he (by decide)
    · exact (digit_ne hd).2.1 rfl

theorem statusText_no_nl (code : Int) :
    '\n' ∉ statusText code := by
  unfold statusText
  cases hf : statusTextTable.find? (fun q => q.1 = code) with
  | none => simp
  | some pr =>
    have hmem : pr ∈ statusTextTable := List.mem_of_find?_eq_some hf
    have hall : ∀ q ∈ statusTextTable, '\n' ∉ q.2.toList := by decide
    simpa using hall pr hmem

/-! ### Response-header record round trip -/

theorem statusText_no_cr (code : Int) : '\r' ∉ statusText code := by
  unfold statusText
  cases hf : statusTextTable.find? (fun q => q.1 = code) with
  | none => simp
  | some pr =>
    have hmem : pr ∈ statusTextTable := List.mem_of_find?_eq_some hf
    have hall : ∀ q ∈ statusTextTable, '\r' ∉ q.2.toList := by decide
    simpa using hall pr hmem

theorem storeHeaderBytes_wire (code : Int) (h : HeaderModel) :
    storeHeaderBytes code h =
      joinCRLF ((("HTTP/1.1").toList ++ ' ' :: (goItoa code ++ ' ' :: statusText code)) ::
        (headerLines h ++ [[]])) := by
  unfold storeHeaderBytes headersBlock
  rw [← wire_assemble]

/-- Decoding an encoded response-header record: the status code comes back
through `Atoi`, and the header map comes back sorted with canonicalized
names; the reason phrase is dropped. -/
theorem readResponseHeaders_encode (code : Int) (h : HeaderModel)
    (hh : ValidHeader h) :
    readResponseHeaders (storeHeaderBytes code h) =
      .ok ⟨code, (sortHeader h).map (fun kv => (canonicalMIMEHeaderKey kv.1, kv.2))⟩ := by
  obtain ⟨hent, hpw⟩ := hh
  have hnl : ∀ l ∈ (("HTTP/1.1").toList ++ ' ' :: (goItoa code ++ ' ' :: statusText code)) ::
      (headerLines h ++ [[]]), '\n' ∉ l := by
    intro l hl
    rcases List.mem_cons.mp hl with he | hin
    · subst he
      intro hmem
      rcases List.mem_append.mp hmem with hin2 | hin2
      · exact absurd hin2 (by decide)
      · rcases List.mem_cons.mp hin2 with he2 | hin3
        · exact absurd he2 (by decide)
        · rcases List.mem_append.mp hin3 with hin4 | hin4
          · exact (goItoa_no_nl code).2 hin4
          · rcases List.mem_cons.mp hin4 with he3 | hin5
            · exact absurd he3 (by decide)
            · exact statusText_no_nl code hin5
    · rcases List.mem_append.mp hin with hin2 | hin2
      · exact headerLines_no_nl h
          (fun kv hkv => ⟨(hent kv hkv).2.1, (hent kv hkv).2.2.2⟩) l hin2
      · rcases List.mem_cons.mp hin2 with he2 | hin3
        · subst he2; simp
        · simp at hin3
  rw [storeHeaderBytes_wire code h]
  unfold readResponseHeaders
  rw [splitLines_joinCRLF _ hnl]
  simp only []
  rw [splitNSpace_three (statusText code) (by decide) (goItoa_no_nl code).1]
  simp only []
  rw [goAtoi_goItoa]
  rw [headerLines_eq_flat h (fun kv hkv => (hent kv hkv).2.2.2)]
  have hcond1 : ∀ kv ∈ sortHeader h, kv.1 ≠ [] ∧ kv.1.all isTokenChar = true ∧
      kv.2 ≠ [] ∧ ∀ v ∈ kv.2, trimLeftST v = v := by
    intro kv hkv
    have hkv2 : kv ∈ h := (sortHeader_perm h).subset hkv
    obtain ⟨ha, hb, hc, hd⟩ := hent kv hkv2
    exact ⟨ha, hb, hc, fun v hv => cleanValue_trimLeft (hd v hv)⟩
  have hpws : (sortHeader h).Pairwise (fun a b => lowBytes a.1 ≠ lowBytes b.1) := by
    refine (List.Perm.pairwise_iff ?_ (sortHeader_perm h)).mpr hpw
    intro a b hab2 hcc
    exact hab2 hcc.symm
  have hcond2 : ((sortHeader h).map
      (fun kv => canonicalMIMEHeaderKey kv.1)).Pairwise (fun a b => a ≠ b) := by
    rw [List.pairwise_map]
    refine hpws.imp ?_
    intro a b hR hceq
    exact hR (by rw [← canon_lowBytes a.1, hceq, canon_lowBytes])
  rw [show (flatPairs (sortHeader h)).map lineFor ++ [[]] =
      (flatPairs (sortHeader h)).map lineFor ++ [] :: [] from rfl]
  rw [readMIMEHeader_encode (sortHeader h) [] hcond1 hcond2]

/-- C6: for every status code and valid header block with canonical names,
serializing them as the store's response-header wire format (status line
with the standard reason phrase, then the header block, then a blank line,
as `storeHeader` does) and decoding with `readResponseHeaders` yields the
same status code and an equal header block (equal as finite maps). -/
theorem c6_response_header_roundtrip (code : Int) (h : HeaderModel)
    (hh : ValidHeader h) (hcanon : ∀ kv ∈ h, canonicalMIMEHeaderKey kv.1 = kv.1) :
    ∃ rec, readResponseHeaders (storeHeaderBytes code h) = .ok rec ∧
      rec.statusCode = code ∧ headerMapEq rec.header h := by
  refine ⟨_, readResponseHeaders_encode code h hh, rfl, ?_⟩
  show headerMapEq ((sortHeader h).map (fun kv => (canonicalMIMEHeaderKey kv.1, kv.2))) h
  have hmapid : (sortHeader h).map (fun kv => (canonicalMIMEHeaderKey kv.1, kv.2)) =
      sortHeader h := by
    have hcg : ∀ kv ∈ sortHeader h,
        (canonicalMIMEHeaderKey kv.1, kv.2) = (id kv : Bytes × List Bytes) := by
      intro kv hkv
      obtain ⟨k, vs⟩ := kv
      simp [hcanon _ ((sortHeader_perm h).subset hkv)]
    rw [List.map_eq_map_iff.mpr hcg, List.map_id]
  rw [hmapid]
  have hpws : (sortHeader h).Pairwise (fun a b => (id a.1 : Bytes) ≠ id b.1) := by
    refine (List.Perm.pairwise_iff ?_ (sortHeader_perm h)).mpr ?_
    · intro a b hab2 hcc
      exact hab2 hcc.symm
    · refine hh.2.imp ?_
      intro a b hR he
      exact hR (by rw [show a.1 = b.1 from he])
  intro name
  exact lookupBy_perm (sortHeader_perm h) hpws name

/-- C6 witness: the round trip at status 200 with a concrete header. -/
theorem c6_response_header_roundtrip_witness :
    ∃ rec, readResponseHeaders (storeHeaderBytes 200
        [(("X-Test").toList, [("b").toList])]) = .ok rec ∧
      rec.statusCode = 200 ∧
      headerMapEq rec.header [(("X-Test").toList, [("b").toList])] :=
  c6_response_header_roundtrip 200 _ ⟨by decide, by decide⟩ (by decide)

/-! ### Store-engine state facts -/

theorem ne_private (p : String) : p ≠ p ++ privateExt := by
  intro he
  have h1 := congrArg String.length he
  rw [String.length_append] at h1
  have h2 : privateExt.length = 8 := rfl
  omega

/-- The filesystem state after the acquire/write/release sequence every
store operation performs on a clear path. -/
theorem storeWrite_state (fs : FS) (cpath : String) (bytes : Bytes) :
    ((vfsDeletePrivateDummy
        (vfsWrite (vfsCreatePrivateDummy fs (cpath ++ privateExt)) cpath bytes)
        (cpath ++ privateExt)).2 cpath = some bytes) ∧
    ((vfsDeletePrivateDummy
        (vfsWrite (vfsCreatePrivateDummy fs (cpath ++ privateExt)) cpath bytes)
        (cpath ++ privateExt)).2 (cpath ++ privateExt) = none) ∧
    (∀ q, q ≠ cpath → q ≠ cpath ++ privateExt →
      (vfsDeletePrivateDummy
        (vfsWrite (vfsCreatePrivateDummy fs (cpath ++ privateExt)) cpath bytes)
        (cpath ++ privateExt)).2 q = fs q) := by
  have hne : cpath ++ privateExt ≠ cpath := fun he => ne_private cpath he.symm
  have h2 : (vfsWrite (vfsCreatePrivateDummy fs (cpath ++ privateExt)) cpath bytes)
      (cpath ++ privateExt) = some dummyBytes := by
    simp [vfsWrite, vfsCreatePrivateDummy, fsUpdate, hne]
  have hne2 : ¬ cpath = cpath ++ privateExt := ne_private cpath
  refine ⟨?_, ?_, ?_⟩
  · simp [vfsDeletePrivateDummy, h2, vfsWrite, vfsCreatePrivateDummy, fsUpdate, hne, hne2]
  · simp [vfsDeletePrivateDummy, h2, vfsWrite, vfsCreatePrivateDummy, fsUpdate, hne, hne2]
  · intro q hq1 hq2
    simp [vfsDeletePrivateDummy, h2, vfsWrite, vfsCreatePrivateDummy, fsUpdate, hne, hne2,
      hq1, hq2]

def idDigests : DigestFns :=
  ⟨fun s => s, fun s => s, fun s => s, fun s => s, fun s => s, fun s => s, fun s => s⟩

/-! ### Claim C2: zero-length content -/

/-- C2 (amended): a committed content file of zero length with a clear
marker makes `RetrieveRequestByFileName` and `RetrieveResponse` fail with
the found-empty condition (`ErrFoundWithZeroInStore`); the response-header
retrieve has no zero-size check and instead fails with the EOF read error
from decoding the empty record — in every case no empty content is
returned as a valid value. -/
theorem c2_zero_content (d : DigestFns) (hs : String) (fs : FS)
    (key filename : String) :
    (fs filename = some [] → statNonzero fs (filename ++ privateExt) = false →
      retrieveRequestByFileName fs filename = .error .foundWithZeroInStore) ∧
    (fs (bodyPath d hs key) = some [] →
     statNonzero fs (bodyPath d hs key ++ privateExt) = false →
      retrieveResponse d hs fs key = .error .foundWithZeroInStore) ∧
    (fs (headerPath d hs key) = some [] →
     statNonzero fs (headerPath d hs key ++ privateExt) = false →
      retrieveResponseHeader d hs fs key = .error .eof) := by
  refine ⟨?_, ?_, ?_⟩
  · intro hc hm
    simp [retrieveRequestByFileName, privateFileExists, hm, hc]
  · intro hc hm
    simp [retrieveResponse, privateFileExists, hm, hc]
  · intro hc hm
    simp [retrieveResponseHeader, privateFileExists, hm, hc]
    rfl

def fsC2 : FS := fsUpdate emptyFS "header/v1/k" (some [])

/-- C2, counterexample to the claim as stated: with an empty committed
header record and no marker, `RetrieveResponseHeader` fails with the EOF
read error, not with `ErrFoundWithZeroInStore`. -/
theorem c2_header_not_found_empty :
    retrieveResponseHeader idDigests "plain" fsC2 "k" = .error .eof ∧
    GoErr.eof ≠ GoErr.foundWithZeroInStore := by
  constructor
  · decide
  · decide

/-- C2 witness: the amended behaviour at a concrete filesystem. -/
theorem c2_zero_content_witness :
    retrieveRequestByFileName (fsUpdate emptyFS "request/v1/k" (some [])) "request/v1/k" =
      .error .foundWithZeroInStore :=
  (c2_zero_content idDigests "plain" (fsUpdate emptyFS "request/v1/k" (some []))
    "k" "request/v1/k").1 (by decide) (by decide)

/-! ### Claim C4: marker precedence on retrieve -/

/-- C4: a non-empty marker makes every retrieve fail with the
write-in-progress condition (`ErrFoundInStorePrivate`) regardless of the
committed content, and the marker check reports a write in progress
exactly when the marker exists with non-zero size (a missing or empty
marker is "no write in progress"). -/
theorem c4_marker_precedence (d : DigestFns) (hs : String) (fs : FS)
    (key filename : String) :
    (statNonzero fs (filename ++ privateExt) = true →
      retrieveRequestByFileName fs filename = .error .foundInStorePrivate) ∧
    (statNonzero fs (bodyPath d hs key ++ privateExt) = true →
      retrieveResponse d hs fs key = .error .foundInStorePrivate) ∧
    (statNonzero fs (headerPath d hs key ++ privateExt) = true →
      retrieveResponseHeader d hs fs key = .error .foundInStorePrivate) ∧
    (privateFileExists fs filename = .error .foundInStorePrivate ↔
      statNonzero fs (filename ++ privateExt) = true) := by
  refine ⟨?_, ?_, ?_, ?_⟩
  · intro hm
    simp [retrieveRequestByFileName, privateFileExists, hm]
  · intro hm
    simp [retrieveResponse, privateFileExists, hm]
  · intro hm
    simp [retrieveResponseHeader, privateFileExists, hm]
  · constructor
    · intro he
      by_cases hm : statNonzero fs (filename ++ privateExt) = true
      · exact hm
      · simp [privateFileExists, hm] at he
    · intro hm
      simp [privateFileExists, hm]

/-- C4 witness: marker precedence at a concrete filesystem where both the
marker and committed content exist. -/
theorem c4_marker_precedence_witness :
    retrieveRequestByFileName
      (fsUpdate (fsUpdate emptyFS "request/v1/k" (some (("x").toList)))
        "request/v1/k.private" (some dummyBytes)) "request/v1/k" =
      .error .foundInStorePrivate :=
  (c4_marker_precedence idDigests "plain"
    (fsUpdate (fsUpdate emptyFS "request/v1/k" (some (("x").toList)))
      "request/v1/k.private" (some dummyBytes)) "k" "request/v1/k").1 (by decide)

/-! ### Claim C5: store exclusion -/

/-- C5: with override false, each store operation fails with
`ErrFoundInStorePrivate` when the marker is non-empty, otherwise with
`ErrFoundInStore` when committed content is non-empty, leaving the
filesystem unchanged in both cases; with override true it proceeds,
writes the new content, and leaves the marker released. -/
theorem c5_store_exclusion (d : DigestFns) (hs : String) (fs : FS)
    (h : ReqModel) (body : Bytes) (code : Int) (hdr : HeaderModel) (key : String) :
    (statNonzero fs (requestPath d hs key ++ privateExt) = true →
      storeRequest d hs fs h key false = (.error .foundInStorePrivate, fs)) ∧
    (statNonzero fs (requestPath d hs key ++ privateExt) = false →
     statNonzero fs (requestPath d hs key) = true →
      storeRequest d hs fs h key false = (.error .foundInStore, fs)) ∧
    ((storeRequest d hs fs h key true).1 = .ok () ∧
     (storeRequest d hs fs h key true).2 (requestPath d hs key) =
        some (storeRequestBytes h) ∧
     (storeRequest d hs fs h key true).2 (requestPath d hs key ++ privateExt) = none ∧
     ∀ q, q ≠ requestPath d hs key → q ≠ requestPath d hs key ++ privateExt →
        (storeRequest d hs fs h key true).2 q = fs q) ∧
    (statNonzero fs (bodyPath d hs key ++ privateExt) = true →
      storeBody d hs fs body key false = (.error .foundInStorePrivate, fs)) ∧
    (statNonzero fs (bodyPath d hs key ++ privateExt) = false →
     statNonzero fs (bodyPath d hs key) = true →
      storeBody d hs fs body key false = (.error .foundInStore, fs)) ∧
    ((storeBody d hs fs body key true).1 = .ok () ∧
     (storeBody d hs fs body key true).2 (bodyPath d hs key) = some body ∧
     (storeBody d hs fs body key true).2 (bodyPath d hs key ++ privateExt) = none ∧
     ∀ q, q ≠ bodyPath d hs key → q ≠ bodyPath d hs key ++ privateExt →
        (storeBody d hs fs body key true).2 q = fs q) ∧
    (statNonzero fs (headerPath d hs key ++ privateExt) = true →
      storeHeader d hs fs code hdr key false = (.error .foundInStorePrivate, fs)) ∧
    (statNonzero fs (headerPath d hs key ++ privateExt) = false →
     statNonzero fs (headerPath d hs key) = true →
      storeHeader d hs fs code hdr key false = (.error .foundInStore, fs)) ∧
    ((storeHeader d hs fs code hdr key true).1 = .ok () ∧
     (storeHeader d hs fs code hdr key true).2 (headerPath d hs key) =
        some (storeHeaderBytes code hdr) ∧
     (storeHeader d hs fs code hdr key true).2 (headerPath d hs key ++ privateExt) = none ∧
     ∀ q, q ≠ headerPath d hs key → q ≠ headerPath d hs key ++ privateExt →
        (storeHeader d hs fs code hdr key true).2 q = fs q) := by
  refine ⟨?_, ?_, ?_, ?_, ?_, ?_, ?_, ?_, ?_⟩
  · intro hm
    simp [storeRequest, hm]
  · intro hm hc
    simp [storeRequest, hm, hc]
  · have hst := storeWrite_state fs (requestPath d hs key) (storeRequestBytes h)
    simp only [storeRequest, Bool.not_true, Bool.false_and, if_false]
    exact ⟨rfl, hst.1, hst.2.1, hst.2.2⟩
  · intro hm
    simp [storeBody, hm]
  · intro hm hc
    simp [storeBody, hm, hc]
  · have hst := storeWrite_state fs (bodyPath d hs key) body
    simp only [storeBody, Bool.not_true, Bool.false_and, if_false]
    exact ⟨rfl, hst.1, hst.2.1, hst.2.2⟩
  · intro hm
    simp [storeHeader, hm]
  · intro hm hc
    simp [storeHeader, hm, hc]
  · have hst := storeWrite_state fs (headerPath d hs key) (storeHeaderBytes code hdr)
    simp only [storeHeader, Bool.not_true, Bool.false_and, if_false]
    exact ⟨rfl, hst.1, hst.2.1, hst.2.2⟩

/-- C5 witness: a non-override store against an existing marker fails with
the write-in-progress condition and changes nothing. -/
theorem c5_store_exclusion_witness :
    storeBody idDigests "plain"
      (fsUpdate emptyFS "body/v1/k.private" (some dummyBytes)) (("data").toList)
      "k" false =
      (.error .foundInStorePrivate, fsUpdate emptyFS "body/v1/k.private" (some dummyBytes)) :=
  (c5_store_exclusion idDigests "plain"
    (fsUpdate emptyFS "body/v1/k.private" (some dummyBytes))
    ⟨[], ⟨[]⟩, [], [], []⟩ (("data").toList) 0 [] "k").2.2.2.1 (by decide)

/-! ### Claim C8: deletion -/

/-- C8: each single-class delete removes the committed content, returning
not-found when the content is absent (and touching nothing), and then
best-effort removes the marker, whose state never affects the result;
`DelResponse` deletes the body and then the header, propagating the first
hard error. -/
theorem c8_delete (d : DigestFns) (hs : String) (fs : FS) (key : String) :
    (fs (requestPath d hs key) = none →
      delRequest d hs fs key = (.error .notFoundInStore, fs)) ∧
    (∀ c, fs (requestPath d hs key) = some c →
      (delRequest d hs fs key).1 = .ok () ∧
      (delRequest d hs fs key).2 (requestPath d hs key) = none ∧
      (delRequest d hs fs key).2 (requestPath d hs key ++ privateExt) = none ∧
      ∀ q, q ≠ requestPath d hs key → q ≠ requestPath d hs key ++ privateExt →
        (delRequest d hs fs key).2 q = fs q) ∧
    (fs (bodyPath d hs key) = none →
      delResponseBody d hs fs key = (.error .notFoundInStore, fs)) ∧
    (∀ c, fs (bodyPath d hs key) = some c →
      (delResponseBody d hs fs key).1 = .ok () ∧
      (delResponseBody d hs fs key).2 (bodyPath d hs key) = none ∧
      (delResponseBody d hs fs key).2 (bodyPath d hs key ++ privateExt) = none ∧
      ∀ q, q ≠ bodyPath d hs key → q ≠ bodyPath d hs key ++ privateExt →
        (delResponseBody d hs fs key).2 q = fs q) ∧
    (fs (headerPath d hs key) = none →
      delResponseHeader d hs fs key = (.error .notFoundInStore, fs)) ∧
    (∀ c, fs (headerPath d hs key) = some c →
      (delResponseHeader d hs fs key).1 = .ok () ∧
      (delResponseHeader d hs fs key).2 (headerPath d hs key) = none ∧
      (delResponseHeader d hs fs key).2 (headerPath d hs key ++ privateExt) = none ∧
      ∀ q, q ≠ headerPath d hs key → q ≠ headerPath d hs key ++ privateExt →
        (delResponseHeader d hs fs key).2 q = fs q) ∧
    (fs (bodyPath d hs key) = none →
      delResponse d hs fs key = (.error .notFoundInStore, fs)) ∧
    (∀ c, fs (bodyPath d hs key) = some c →
      delResponse d hs fs key =
        delResponseHeader d hs (delResponseBody d hs fs key).2 key) := by
  have hneR : requestPath d hs key ++ privateExt ≠ requestPath d hs key :=
    fun he => ne_private _ he.symm
  have hneR2 := ne_private (requestPath d hs key)
  have hneB : bodyPath d hs key ++ privateExt ≠ bodyPath d hs key :=
    fun he => ne_private _ he.symm
  have hneB2 := ne_private (bodyPath d hs key)
  have hneH : headerPath d hs key ++ privateExt ≠ headerPath d hs key :=
    fun he => ne_private _ he.symm
  have hneH2 := ne_private (headerPath d hs key)
  refine ⟨?_, ?_, ?_, ?_, ?_, ?_, ?_, ?_⟩
  · intro hc
    simp [delRequest, delByFilename, hc]
  · intro c hc
    cases hfm : fs (requestPath d hs key ++ privateExt) with
    | none =>
      refine ⟨?_, ?_, ?_, ?_⟩
      · simp [delRequest, delByFilename, hc, hfm, fsUpdate, hneR]
      · simp [delRequest, delByFilename, hc, hfm, fsUpdate, hneR]
      · simp [delRequest, delByFilename, hc, hfm, fsUpdate, hneR]
      · intro q hq1 hq2
        simp [delRequest, delByFilename, hc, hfm, fsUpdate, hneR, hq1, hq2]
    | some mc =>
      refine ⟨?_, ?_, ?_, ?_⟩
      · simp [delRequest, delByFilename, hc, hfm, fsUpdate, hneR]
      · simp [delRequest, delByFilename, hc, hfm, fsUpdate, hneR, hneR2]
      · simp [delRequest, delByFilename, hc, hfm, fsUpdate, hneR]
      · intro q hq1 hq2
        simp [delRequest, delByFilename, hc, hfm, fsUpdate, hneR, hq1, hq2]
  · intro hc
    simp [delResponseBody, delByFilename, hc]
  · intro c hc
    cases hfm : fs (bodyPath d hs key ++ privateExt) with
    | none =>
      refine ⟨?_, ?_, ?_, ?_⟩
      · simp [delResponseBody, delByFilename, hc, hfm, fsUpdate, hneB]
      · simp [delResponseBody, delByFilename, hc, hfm, fsUpdate, hneB]
      · simp [delResponseBody, delByFilename, hc, hfm, fsUpdate, hneB]
      · intro q hq1 hq2
        simp [delResponseBody, delByFilename, hc, hfm, fsUpdate, hneB, hq1, hq2]
    | some mc =>
      refine ⟨?_, ?_, ?_, ?_⟩
      · simp [delResponseBody, delByFilename, hc, hfm, fsUpdate, hneB]
      · simp [delResponseBody, delByFilename, hc, hfm, fsUpdate, hneB, hneB2]
      · simp [delResponseBody, delByFilename, hc, hfm, fsUpdate, hneB]
      · intro q hq1 hq2
        simp [delResponseBody, delByFilename, hc, hfm, fsUpdate, hneB, hq1, hq2]
  · intro hc
    simp [delResponseHeader, delByFilename, hc]
  · intro c hc
    cases hfm : fs (headerPath d hs key ++ privateExt) with
    | none =>
      refine ⟨?_, ?_, ?_, ?_⟩
      · simp [delResponseHeader, delByFilename, hc, hfm, fsUpdate, hneH]
      · simp [delResponseHeader, delByFilename, hc, hfm, fsUpdate, hneH]
      · simp [delResponseHeader, delByFilename, hc, hfm, fsUpdate, hneH]
      · intro q hq1 hq2
        simp [delResponseHeader, delByFilename, hc, hfm, fsUpdate, hneH, hq1, hq2]
    | some mc =>
      refine ⟨?_, ?_, ?_, ?_⟩
      · simp [delResponseHeader, delByFilename, hc, hfm, fsUpdate, hneH]
      · simp [delResponseHeader, delByFilename, hc, hfm, fsUpdate, hneH, hneH2]
      · simp [delResponseHeader, delByFilename, hc, hfm, fsUpdate, hneH]
      · intro q hq1 hq2
        simp [delResponseHeader, delByFilename, hc, hfm, fsUpdate, hneH, hq1, hq2]
  · intro hc
    simp [delResponse, delResponseBody, delByFilename, hc]
  · intro c hc
    unfold delResponse
    have h1 : (delResponseBody d hs fs key).1 = .ok () := by
      cases hfm : fs (bodyPath d hs key ++ privateExt) with
      | none => simp [delResponseBody, delByFilename, hc, hfm, fsUpdate, hneB]
      | some mc => simp [delResponseBody, delByFilename, hc, hfm, fsUpdate, hneB]
    cases hdb : delResponseBody d hs fs key with
    | mk r1 fs1 =>
      rw [hdb] at h1
      simp only at h1
      rw [h1]

/-- C8 witness: deleting a present request record succeeds and clears the
content and marker paths. -/
theorem c8_delete_witness :
    (delRequest idDigests "plain"
      (fsUpdate emptyFS "request/v1/k" (some (("x").toList))) "k").1 = .ok () ∧
    (delRequest idDigests "plain"
      (fsUpdate emptyFS "request/v1/k" (some (("x").toList))) "k").2 "request/v1/k" = none :=
  have h := (c8_delete idDigests "plain"
    (fsUpdate emptyFS "request/v1/k" (some (("x").toList))) "k").2.1
    (("x").toList) (by decide)
  ⟨h.1, h.2.1⟩

/-! ### Claim C3: transport errors in fetch-and-store -/

/-- C3: an outbound-call error whose text contains the special substring
"REDIRECT!!!" is swallowed and the operation proceeds to wrap and store
the response; any other transport error is returned immediately with no
store performed. -/
theorem c3_transport_errors (d : DigestFns) (hs : String) (fs : FS)
    (request : ReqModel) (key : String) (override : Bool)
    (doResp : HttpResp) (e : String) :
    (containsB e.toList redirectMarkerText = false →
      fetchAndStoreResponse d hs fs request key override doResp (some e) =
        (.error (.transport e.toList), fs)) ∧
    (containsB e.toList redirectMarkerText = true →
      fetchAndStoreResponse d hs fs request key override doResp (some e) =
        storeResponse d hs fs (newResponseFromHttp doResp)
          (if goToLower key = "dummy" then String.mk request.url.str else key) override) := by
  constructor
  · intro hnc
    have hnc2 : containsB e.data redirectMarkerText = false := hnc
    simp [fetchAndStoreResponse, hnc2]
  · intro hc
    have hc2 : containsB e.data redirectMarkerText = true := hc
    simp [fetchAndStoreResponse, hc2]

/-- C3 witness: an ordinary transport error aborts with that error and an
unchanged filesystem. -/
theorem c3_transport_errors_witness :
    fetchAndStoreResponse idDigests "plain" emptyFS ⟨[], ⟨[]⟩, [], [], []⟩ "k" false
      ⟨200, [], []⟩ (some "connection refused") =
      (.error (.transport (("connection refused").toList)), emptyFS) :=
  (c3_transport_errors idDigests "plain" emptyFS ⟨[], ⟨[]⟩, [], [], []⟩ "k" false
    ⟨200, [], []⟩ "connection refused").1 (by decide)

/-! ### Claim C7: HashKey -/

/-- C7: `HashKey` is total and deterministic; the selector "plain"
(case-insensitively) returns the key unchanged, the named digest selectors
dispatch to the corresponding algorithm, and every other selector
(including the empty one) falls back to sha256. -/
theorem c7_hashkey (d : DigestFns) (sel key : String) :
    (goToLower sel = "plain" → hashKey d sel key = key) ∧
    (goToLower sel = "sha224" → hashKey d sel key = d.dsha224 key) ∧
    (goToLower sel = "sha384" → hashKey d sel key = d.dsha384 key) ∧
    (goToLower sel = "sha512" → hashKey d sel key = d.dsha512 key) ∧
    (goToLower sel = "sha1" → hashKey d sel key = d.dsha1 key) ∧
    (goToLower sel = "md5" → hashKey d sel key = d.dmd5 key) ∧
    (goToLower sel = "md4" → hashKey d sel key = d.dmd4 key) ∧
    (goToLower sel ∉ (["sha224", "sha384", "sha512", "sha1", "md5", "md4", "plain"] :
        List String) → hashKey d sel key = d.dsha256 key) ∧
    (∀ key2, key2 = key → hashKey d sel key2 = hashKey d sel key) := by
  refine ⟨?_, ?_, ?_, ?_, ?_, ?_, ?_, ?_, ?_⟩
  · intro hsel; simp [hashKey, hsel]
  · intro hsel; simp [hashKey, hsel]
  · intro hsel; simp [hashKey, hsel]
  · intro hsel; simp [hashKey, hsel]
  · intro hsel; simp [hashKey, hsel]
  · intro hsel; simp [hashKey, hsel]
  · intro hsel; simp [hashKey, hsel]
  · intro hnm
    have h1 : goToLower sel ≠ "sha224" := fun he => hnm (by simp [he])
    have h2 : goToLower sel ≠ "sha384" := fun he => hnm (by simp [he])
    have h3 : goToLower sel ≠ "sha512" := fun he => hnm (by simp [he])
    have h4 : goToLower sel ≠ "sha1" := fun he => hnm (by simp [he])
    have h5 : goToLower sel ≠ "md5" := fun he => hnm (by simp [he])
    have h6 : goToLower sel ≠ "md4" := fun he => hnm (by simp [he])
    have h7 : goToLower sel ≠ "plain" := fun he => hnm (by simp [he])
    simp [hashKey, h1, h2, h3, h4, h5, h6, h7]
  · intro key2 he
    rw [he]

/-- C7 witness: "plain" matched case-insensitively returns the key, and an
unrecognized selector falls back to the default digest. -/
theorem c7_hashkey_witness :
    hashKey idDigests "PlAiN" "some-key" = "some-key" ∧
    hashKey idDigests "whirlpool" "some-key" = idDigests.dsha256 "some-key" :=
  ⟨(c7_hashkey idDigests "PlAiN" "some-key").1 (by decide),
   (c7_hashkey idDigests "whirlpool" "some-key").2.2.2.2.2.2.2.1 (by decide)⟩

/-! ### Claim C10: Close never returns -/

/-- C10: every response built by `NewResponseFromHttp` wraps its body in
`IoReaderToReadSeekCloser`, whose `Close` calls itself unconditionally:
for every finite call-stack budget the call consumes the entire budget
without returning (the underlying body's close is never reached). -/
theorem c10_close_never_returns (hr : HttpResp) (fuel : Nat) :
    respCloseFuel (newResponseFromHttp hr) fuel = none := by
  show ioCloseLoop fuel = none
  induction fuel with
  | zero => rfl
  | succ n ih => exact ih

/-! ### Claim C9: best-effort enumeration -/

def reqEncA : ReqModel :=
  ⟨("GET").toList, ⟨("http://a/x").toList⟩, ("HTTP/1.1").toList, [],
   [(("Host").toList, [("a").toList])]⟩

def reqEncB : ReqModel :=
  ⟨("GET").toList, ⟨("http://b/y").toList⟩, ("HTTP/1.1").toList, [],
   [(("Host").toList, [("b").toList])]⟩

/-- A request subtree with two valid records and one corrupt record. -/
def fsC9 : FS :=
  fsUpdate (fsUpdate (fsUpdate emptyFS
    "request/v1/a" (some (storeRequestBytes reqEncA)))
    "request/v1/b" (some (storeRequestBytes reqEncB)))
    "request/v1/c" (some (("garbage").toList))

/-- C9: `RetrieveAllRequests` returns exactly the requests of the walked
entries that decode successfully, silently omitting every entry whose
retrieval fails; in particular, over three stored requests of which one
record is corrupt, it returns the two valid requests. -/
theorem c9_enumeration :
    (∀ (fs : FS) (ps : List String),
      retrieveAllRequests fs ps =
        ps.filterMap (fun q => (retrieveRequestByFileName fs q).toOption)) ∧
    retrieveAllRequests fsC9 ["request/v1/a", "request/v1/b", "request/v1/c"] =
      [reqEncA, reqEncB] := by
  constructor
  · intro fs ps
    induction ps with
    | nil => rfl
    | cons q qs ih =>
      cases hr : retrieveRequestByFileName fs q with
      | ok r =>
        simp [retrieveAllRequests, hr, List.filterMap_cons, Except.toOption, ih]
      | error err =>
        simp [retrieveAllRequests, hr, List.filterMap_cons, Except.toOption, ih]
  · decide
